import Mathlib

/-!
Verification of the submission-matching and progress engine of the
trainee-tracker service.  The definitions below are a shallow embedding of
the Rust code in `src/course.rs` (issue-label parsing, title tokenization,
PR-to-assignment matching, progress scoring).  Rust `String`s are modelled
as lists of characters, `IndexSet` as an insertion-ordered duplicate-free
list, `BTreeMap` as an association list, and fallible code returns
`Except`/`Option`.  Panicking slice accesses are modelled with `Option`
(`none` = panic).  Theorems checking the published specification against
these definitions follow the definitions.
-/

namespace TraineeTracker

/-- Rust strings, modelled as their character sequences. -/
abbrev RStr := List Char

/-- Character-wise lowercasing of a string, modelling `str::to_lowercase`. -/
def lowerStr (s : RStr) : RStr := s.map Char.toLower

/-- Split a string on a delimiter character, keeping empty parts, exactly as
Rust's `str::split` does (`""` yields `[""]`, `"|"` yields `["", ""]`). -/
def splitOnChar (d : Char) : RStr → List RStr
  | [] => [[]]
  | c :: cs =>
    if c = d then [] :: splitOnChar d cs
    else
      match splitOnChar d cs with
      | [] => [[c]]
      | r :: rs => (c :: r) :: rs

/-- Strip a leading prefix from a string, modelling `str::strip_prefix`:
`some rest` when the first argument is an initial segment, otherwise `none`. -/
def dropPre : RStr → RStr → Option RStr
  | [], s => some s
  | _ :: _, [] => none
  | p :: ps, c :: cs => if p = c then dropPre ps cs else none

/-- Does the string start with the given text (`str::starts_with`)? -/
def startsWith (p s : RStr) : Bool := (dropPre p s).isSome

/-- Remove all trailing occurrences of a character
(`str::trim_end_matches`). -/
def trimEndChar (d : Char) (s : RStr) : RStr :=
  ((s.reverse).dropWhile (fun c => c = d)).reverse

/-- Remove leading and trailing whitespace (`str::trim`). -/
def trimStr (s : RStr) : RStr :=
  ((s.dropWhile Char.isWhitespace).reverse.dropWhile Char.isWhitespace).reverse

/-- Insert into an insertion-ordered set (`IndexSet::insert`): append the
element if it is not already present. -/
def insertIdx (s : List RStr) (x : RStr) : List RStr :=
  if x ∈ s then s else s ++ [x]

/-- Collect a list into an insertion-ordered set
(`collect::<IndexSet<_>>()`). -/
def collectSet (l : List RStr) : List RStr := l.foldl insertIdx []

/-- The numeric value of a digit string (most significant digit first). -/
def digitsVal (ds : RStr) : Nat := ds.foldl (fun a c => 10 * a + (c.toNat - 48)) 0

/-- The decimal digits of a number, as characters. -/
def natChars (n : Nat) : RStr := (Nat.repr n).data

/-- The first maximal run of decimal digits in a string, modelling the first
match of the regex `(\d+)`. -/
def firstDigitRun : RStr → Option RStr
  | [] => none
  | c :: cs =>
    if c.isDigit then some (c :: cs.takeWhile Char.isDigit) else firstDigitRun cs

/-- Parse a string as a `usize`, modelling `usize::from_str`: an optional
leading `+`, then a nonempty digit sequence whose value fits in 64 bits. -/
def parseUsizeStr (s : RStr) : Option Nat :=
  let ds := match s with
    | '+' :: rest => rest
    | other => other
  if ds = [] then none
  else if ds.all Char.isDigit then
    if digitsVal ds < 2 ^ 64 then some (digitsVal ds) else none
  else none

/-- Parse a string as a `NonZeroUsize` (`NonZeroUsize::from_str`): a `usize`
whose value is not zero. -/
def parseNonZeroUsize (s : RStr) : Option Nat :=
  (parseUsizeStr s).bind (fun n => if n = 0 then none else some n)

/-- The tokenizer `title_word_set`: lowercase the title, split successively
on space, underscore, hyphen, slash and pipe, and collect the parts into an
insertion-ordered set. -/
def title_word_set (title : RStr) : List RStr :=
  collectSet
    (((((splitOnChar ' ' (lowerStr title)).flatMap (splitOnChar '_')).flatMap
        (splitOnChar '-')).flatMap (splitOnChar '/')).flatMap (splitOnChar '|'))

/-- All adjacent pairs of a list, modelling `Itertools::tuple_windows`. -/
def pairWindows : List RStr → List (RStr × RStr)
  | a :: b :: rest => (a, b) :: pairWindows (b :: rest)
  | _ => []

/-- The assignment-title tokenizer `make_title_more_matchable`: trim trailing
periods, tokenize, then add the concatenation of every pair of adjacent
tokens to the set. -/
def make_title_more_matchable (title : RStr) : List RStr :=
  let title_set := title_word_set (trimEndChar '.' title)
  (pairWindows title_set).foldl (fun s p => insertIdx s (p.1 ++ p.2)) title_set

/-- The size of the intersection of two insertion-ordered sets
(`IndexSet::intersection(...).count()`). -/
def matchCount (a b : List RStr) : Nat :=
  (a.filter (fun x => decide (x ∈ b))).length

/-- A region name (the `Region` newtype around `String`). -/
abbrev Region := RStr

/-- Whether a pull-request assignment is mandatory or stretch
(`AssignmentOptionality`). -/
inductive AssignmentOptionality
  | Mandatory
  | Stretch
deriving DecidableEq, Repr

/-- The review state of a pull request (`PrState`). -/
inductive PrState
  | NeedsReview
  | Reviewed
  | Complete
  | Unknown
deriving DecidableEq, Repr

/-- A pull request (`Pr`), restricted to the fields the matching and scoring
engine reads. -/
structure Pr where
  number : Nat
  url : RStr
  title : RStr
  state : PrState
  is_closed : Bool
deriving DecidableEq, Repr

/-- One unit of expected work (`Assignment`): attendance at a class, or an
expected pull request. -/
inductive Assignment
  | Attendance (class_dates : List (Region × Nat))
  | ExpectedPullRequest (title : RStr) (html_url : RStr)
      (optionality : AssignmentOptionality)
deriving DecidableEq, Repr

/-- The optionality of an assignment (`Assignment::optionality`): attendance
is always mandatory. -/
def Assignment.optionality : Assignment → AssignmentOptionality
  | .Attendance _ => .Mandatory
  | .ExpectedPullRequest _ _ o => o

/-- A sprint (`Sprint`): its assignments and its class date per region.
Dates are modelled as day numbers. -/
structure Sprint where
  assignments : List Assignment
  dates : List (Region × Nat)
deriving DecidableEq, Repr

/-- First-match lookup in an association list (models `BTreeMap::get`, whose
keys are unique). -/
def lookupDate (dates : List (Region × Nat)) (region : Region) : Option Nat :=
  ((dates.find? (fun p => decide (p.1 = region))).map (fun p => p.2))

/-- Whether a sprint's class date is in the past for a region
(`Sprint::is_in_past`); `now` makes the clock reading explicit.  An unknown
or missing region counts as past. -/
def Sprint.is_in_past (now : Nat) (s : Sprint) (region : Region) : Bool :=
  if region = "unknown".data then true
  else
    match lookupDate s.dates region with
    | some date => decide (date ≤ now)
    | none => true

/-- A module (`Module`): an ordered sequence of sprints. -/
structure Module where
  sprints : List Sprint
deriving DecidableEq, Repr

/-- An attendance record for one class (`Attendance`). -/
inductive Attendance
  | Absent (register_url : RStr)
  | OnTime (register_url : RStr)
  | Late (register_url : RStr)
  | WrongDay (register_url : RStr)
deriving DecidableEq, Repr

/-- A matched submission (`Submission`). -/
inductive Submission
  | Attendance (a : Attendance)
  | PullRequest (pull_request : Pr) (optionality : AssignmentOptionality)
deriving DecidableEq, Repr

/-- The state of one assignment slot (`SubmissionState`). -/
inductive SubmissionState
  | Some (s : Submission)
  | MissingButExpected (a : Assignment)
  | MissingStretch (a : Assignment)
  | MissingButNotExpected (a : Assignment)
deriving DecidableEq, Repr

/-- Whether the slot already holds a submission
(`SubmissionState::is_submitted`). -/
def SubmissionState.is_submitted : SubmissionState → Bool
  | .Some _ => true
  | .MissingButExpected _ => false
  | .MissingStretch _ => false
  | .MissingButNotExpected _ => false

/-- The submission states of one sprint (`SprintWithSubmissions`). -/
structure SprintWithSubmissions where
  submissions : List SubmissionState
deriving DecidableEq, Repr

/-- A module's matching result (`ModuleWithSubmissions`). -/
structure ModuleWithSubmissions where
  sprints : List SprintWithSubmissions
  unknown_prs : List Pr
deriving DecidableEq, Repr

/-- The error type (`Error`), restricted to the two variants the engine
produces: user-facing label errors and fatal data-integrity errors. -/
inductive Error
  | UserFacing (msg : RStr)
  | Fatal (msg : RStr)
deriving DecidableEq, Repr

/-- A GitHub issue label. -/
structure Label where
  name : RStr
deriving DecidableEq, Repr

/-- A GitHub issue (`octocrab::models::issues::Issue`), restricted to the
fields `parse_issue` reads; `is_pull_request` models
`issue.pull_request.is_some()`. -/
structure Issue where
  labels : List Label
  title : RStr
  html_url : RStr
  is_pull_request : Bool
deriving DecidableEq, Repr

/-- The sprint-label text `"📅 Sprint "` exactly as it appears in the
source file. -/
def sprintLabelText : RStr := "ðŸ“… Sprint ".data

/-- The mandatory-priority label text exactly as in the source file. -/
def mandatoryLabelText : RStr := "ðŸ• Priority Mandatory".data

/-- The stretch-priority label text exactly as in the source file. -/
def stretchLabelText : RStr := "ðŸï¸ Priority Stretch".data

/-- The suffix appended to missing-label messages (`BAD_LABEL_SUFFIX`). -/
def badLabelSuffix : RStr :=
  "\n\nIf this issue was made my a curriculum team member it should be given a sprint label.\nIf this issue was created by a trainee for step submission, it should probably be closed (and they should create the issue in their fork).".data

/-- Accumulator of the label-scanning loop at the top of `parse_issue`. -/
structure LabelScan where
  sprints : List Nat
  submit_label : Option RStr
  optionality : Option AssignmentOptionality
deriving DecidableEq, Repr

/-- The initial label-scan accumulator. -/
def initScan : LabelScan := ⟨[], none, none⟩

/-- Message for a sprint label whose suffix is not a nonzero number. -/
def badSprintMsg (url name : RStr) : RStr :=
  "Failed to parse issue ".data ++ url ++
    " - sprint label wasn't (non-zero) number: ".data ++ name

/-- Message for duplicate submit labels. -/
def dupSubmitMsg (url : RStr) : RStr :=
  "Failed to parse issue ".data ++ url ++ " - duplicate submit labels".data

/-- Message for duplicate priority labels. -/
def dupPriorityMsg (url : RStr) : RStr :=
  "Failed to parse issue ".data ++ url ++ " - duplicate priority labels".data

/-- Message for a missing submit label. -/
def noSubmitMsg (url : RStr) : RStr :=
  "Failed to parse issue ".data ++ url ++ " - no submit label.".data ++
    badLabelSuffix

/-- Message for a missing priority label. -/
def noPriorityMsg (url : RStr) : RStr :=
  "Failed to parse issue ".data ++ url ++ " - no priority label.".data ++
    badLabelSuffix

/-- Message for an unrecognised submit label value. -/
def badSubmitMsg (url value : RStr) : RStr :=
  "Failed to parse issue ".data ++ url ++
    " - submit label wasn't recognised: ".data ++ value

/-- Message for a sprint-label count other than one. -/
def sprintCountMsg (url : RStr) (n : Nat) : RStr :=
  "Failed to parse issue ".data ++ url ++
    " - expected exactly one sprint label but got ".data ++ natChars n

/-- The sprint-label check of the label loop in `parse_issue`. -/
def sprintPart (url : RStr) (st : LabelScan) (label : Label) :
    Except Error LabelScan :=
  match dropPre sprintLabelText label.name with
  | some rest =>
    match parseNonZeroUsize rest with
    | some n => Except.ok { st with sprints := st.sprints ++ [n] }
    | none => Except.error (Error.UserFacing (badSprintMsg url label.name))
  | none => Except.ok st

/-- The submit-label check of the label loop in `parse_issue`. -/
def submitPart (url : RStr) (st : LabelScan) (label : Label) :
    Except Error LabelScan :=
  match dropPre "Submit:".data label.name with
  | some rest =>
    match st.submit_label with
    | some _ => Except.error (Error.UserFacing (dupSubmitMsg url))
    | none => Except.ok { st with submit_label := some rest }
  | none => Except.ok st

/-- The priority-label check of the label loop in `parse_issue`. -/
def priorityPart (url : RStr) (st : LabelScan) (label : Label) :
    Except Error LabelScan :=
  if label.name = mandatoryLabelText then
    match st.optionality with
    | some _ => Except.error (Error.UserFacing (dupPriorityMsg url))
    | none => Except.ok { st with optionality := some .Mandatory }
  else if label.name = stretchLabelText then
    match st.optionality with
    | some _ => Except.error (Error.UserFacing (dupPriorityMsg url))
    | none => Except.ok { st with optionality := some .Stretch }
  else Except.ok st

/-- One iteration of the label loop in `parse_issue`: the sprint, submit and
priority checks in order, each able to fail. -/
def scanLabel (url : RStr) (st : LabelScan) (label : Label) :
    Except Error LabelScan :=
  match sprintPart url st label with
  | Except.error e => Except.error e
  | Except.ok st1 =>
    match submitPart url st1 label with
    | Except.error e => Except.error e
    | Except.ok st2 => priorityPart url st2 label

/-- The label loop of `parse_issue`, with its early returns on error. -/
def scanLabels (url : RStr) (st : LabelScan) : List Label → Except Error LabelScan
  | [] => Except.ok st
  | label :: rest =>
    match scanLabel url st label with
    | Except.error e => Except.error e
    | Except.ok st1 => scanLabels url st1 rest

/-- The submit-label dispatch of `parse_issue` (match on the text after
`"Submit:"`). -/
def chooseAssignment (issue : Issue) (submit : RStr)
    (opt : AssignmentOptionality) : Except Error (Option Assignment) :=
  if submit = "None".data then Except.ok none
  else if submit = "PR".data then
    Except.ok (some (Assignment.ExpectedPullRequest issue.title issue.html_url opt))
  else if submit = "Codility".data then Except.ok none
  else if submit = "Issue".data then Except.ok none
  else if submit = "Slack".data then Except.ok none
  else Except.error (Error.UserFacing (badSubmitMsg issue.html_url submit))

/-- The final sprint-count match of `parse_issue`: exactly one collected
sprint label yields a pair; none is allowed only for a `None`-kind
assignment; anything else is the exactly-one-sprint-label error. -/
def finishSprints (url : RStr) (assignment : Option Assignment) :
    List Nat → Except Error (Option (Nat × Option Assignment))
  | [sprint] => Except.ok (some (sprint, assignment))
  | [] =>
    if assignment.isNone then Except.ok none
    else Except.error (Error.UserFacing (sprintCountMsg url 0))
  | more => Except.error (Error.UserFacing (sprintCountMsg url more.length))

/-- The post-scan part of `parse_issue`: require a submit label, then a
priority label, dispatch on the submit value, then check the sprint
labels. -/
def finishScan (issue : Issue) (st : LabelScan) :
    Except Error (Option (Nat × Option Assignment)) :=
  match st.submit_label with
  | none => Except.error (Error.UserFacing (noSubmitMsg issue.html_url))
  | some submit =>
    match st.optionality with
    | none => Except.error (Error.UserFacing (noPriorityMsg issue.html_url))
    | some opt =>
      match chooseAssignment issue submit opt with
      | Except.error e => Except.error e
      | Except.ok assignment =>
        finishSprints issue.html_url assignment st.sprints

/-- The issue parser `parse_issue`: returns `none` for pull requests, and
otherwise either a parse error or an optional `(sprint number, optional
assignment)` pair. -/
def parse_issue (issue : Issue) :
    Except Error (Option (Nat × Option Assignment)) :=
  if issue.is_pull_request then Except.ok none
  else
    match scanLabels issue.html_url initScan issue.labels with
    | Except.error e => Except.error e
    | Except.ok st => finishScan issue st

/-- A trainee together with matched submissions
(`TraineeWithSubmissions`), restricted to the module map the scorer reads;
the map is an insertion-ordered association list of module name to result. -/
structure TraineeWithSubmissions where
  modules : List (RStr × ModuleWithSubmissions)
deriving DecidableEq, Repr

/-- One step of the accumulating numerator/denominator loop of
`progress_score`, transcribed from the `match` in the source. -/
def scoreStep (acc : Nat × Nat) (submission : SubmissionState) : Nat × Nat :=
  match submission with
  | .Some (.Attendance attendance) =>
    let acc := (acc.1, acc.2 + 10)
    match attendance with
    | .OnTime _ => (acc.1 + 10, acc.2)
    | .Late _ => (acc.1 + 8, acc.2)
    | .WrongDay _ => (acc.1 + 3, acc.2)
    | .Absent _ => acc
  | .Some (.PullRequest pull_request optionality) =>
    let mx := match optionality with
      | .Mandatory => 10
      | .Stretch => 12
    let acc := (acc.1, acc.2 + mx)
    match pull_request.state with
    | .Complete => (acc.1 + mx, acc.2)
    | .NeedsReview => (acc.1 + 6, acc.2)
    | .Reviewed => (acc.1 + 6, acc.2)
    | .Unknown => (acc.1 + 2, acc.2)
  | .MissingButExpected assignment =>
    match assignment with
    | .Attendance _ => (acc.1, acc.2 + 20)
    | .ExpectedPullRequest _ _ _ => (acc.1, acc.2 + 10)
  | .MissingStretch _ => (acc.1, acc.2 + 2)
  | .MissingButNotExpected _ => acc

/-- The progress score (`TraineeWithSubmissions::progress_score`): fold the
accumulator over every submission of every sprint of every module, then
divide (`checked_div(10000 * numerator, denominator).unwrap_or(0)`). -/
def progress_score (t : TraineeWithSubmissions) : Nat :=
  let nd := t.modules.foldl
    (fun acc m =>
      m.2.sprints.foldl
        (fun acc sprint => sprint.submissions.foldl scoreStep acc) acc)
    (0, 0)
  if nd.2 = 0 then 0 else 10000 * nd.1 / nd.2

/-- Every submission state of a trainee, in iteration order. -/
def allSubmissions (t : TraineeWithSubmissions) : List SubmissionState :=
  t.modules.flatMap (fun m => m.2.sprints.flatMap (fun s => s.submissions))

/-- Whether a slot is in the `MissingButNotExpected` state. -/
def SubmissionState.isNotYetExpected : SubmissionState → Bool
  | .MissingButNotExpected _ => true
  | _ => false

/-- Numerator contribution of one submission state, as the specification
tables it: attendance OnTime/Late/WrongDay/Absent give 10/8/3/0; a matched
PR gives its denominator if Complete, 6 if NeedsReview or Reviewed, 2 if
Unknown; every missing state gives 0. -/
def submissionNumer : SubmissionState → Nat
  | .Some (.Attendance (.OnTime _)) => 10
  | .Some (.Attendance (.Late _)) => 8
  | .Some (.Attendance (.WrongDay _)) => 3
  | .Some (.Attendance (.Absent _)) => 0
  | .Some (.PullRequest pull_request optionality) =>
    match pull_request.state with
    | .Complete => (match optionality with | .Mandatory => 10 | .Stretch => 12)
    | .NeedsReview => 6
    | .Reviewed => 6
    | .Unknown => 2
  | .MissingButExpected _ => 0
  | .MissingStretch _ => 0
  | .MissingButNotExpected _ => 0

/-- Denominator contribution of one submission state, as the specification
tables it: attendance 10; matched PR 10 (mandatory) or 12 (stretch);
`MissingButExpected` 20 for attendance assignments and 10 for PR
assignments; `MissingStretch` 2; `MissingButNotExpected` nothing. -/
def submissionDenom : SubmissionState → Nat
  | .Some (.Attendance _) => 10
  | .Some (.PullRequest _ optionality) =>
    (match optionality with | .Mandatory => 10 | .Stretch => 12)
  | .MissingButExpected (.Attendance _) => 20
  | .MissingButExpected (.ExpectedPullRequest _ _ _) => 10
  | .MissingStretch _ => 2
  | .MissingButNotExpected _ => 0

/-- Seeding of one slot in `match_prs_to_assignments`: missing-but-expected
or missing-stretch when the sprint is past, not-yet-expected otherwise. -/
def seedOne (now : Nat) (region : Region) (sprint : Sprint)
    (assignment : Assignment) : SubmissionState :=
  if sprint.is_in_past now region then
    match assignment.optionality with
    | .Mandatory => .MissingButExpected assignment
    | .Stretch => .MissingStretch assignment
  else .MissingButNotExpected assignment

/-- The attendance overlay loop of `match_prs_to_assignments`: every
attendance-assignment slot of sprint `si` is overwritten with the
externally supplied attendance state for that sprint, when present. -/
def overlaySeed (attendance : List SubmissionState) (si : Nat)
    (sprint : Sprint) (base : List SubmissionState) : List SubmissionState :=
  (sprint.assignments.enum).foldl
    (fun subs p =>
      match p.2 with
      | Assignment.Attendance _ =>
        match attendance[si]? with
        | some submission_state => subs.set p.1 submission_state
        | none => subs
      | _ => subs)
    base

/-- The seeding pass of `match_prs_to_assignments`, producing the initial
submission grid for a module. -/
def seedModule (now : Nat) (module : Module)
    (attendance : List SubmissionState) (region : Region) :
    List SprintWithSubmissions :=
  (module.sprints.enum).map
    (fun p =>
      ⟨overlaySeed attendance p.1 p.2
        (p.2.assignments.map (seedOne now region p.2))⟩)

/-- Message of the fatal out-of-range sprint-number error in
`match_prs_to_assignments`. -/
def sprintRangeMsg (n : Nat) : RStr :=
  "Sprint number was impractical - expected something between 1 and 20 but was ".data
    ++ natChars n

/-- Message of the fatal number-parse error in `match_prs_to_assignments`
(a digit run too large for `usize`). -/
def numberParseMsg (ds : RStr) : RStr :=
  "Failed to parse '".data ++ ds ++ "' as number".data

/-- One step of the sprint-claim loop of `match_prs_to_assignments`: for a
title part starting with `sprint` or `week`, parse the first digit run,
reject 0 and numbers above 20 fatally, and otherwise claim that sprint
(overwriting any earlier claim). -/
def claimStep (sprint_index : Option Nat) (title_part : RStr) :
    Except Error (Option Nat) :=
  if startsWith "sprint".data title_part || startsWith "week".data title_part
  then
    match firstDigitRun title_part with
    | some ds =>
      match parseUsizeStr ds with
      | none => Except.error (Error.Fatal (numberParseMsg ds))
      | some number =>
        if number = 0 || decide (number > 20) then
          Except.error (Error.Fatal (sprintRangeMsg number))
        else Except.ok (some (number - 1))
    | none => Except.ok sprint_index
  else Except.ok sprint_index

/-- The sprint-claim loop of `match_prs_to_assignments`, with its early
return on a fatal error. -/
def claimLoop (sprint_index : Option Nat) : List RStr → Except Error (Option Nat)
  | [] => Except.ok sprint_index
  | part :: rest =>
    match claimStep sprint_index part with
    | Except.error e => Except.error e
    | Except.ok si => claimLoop si rest

/-- The sprint-claim extraction of `match_prs_to_assignments`: lowercase the
PR title, split on `|`, trim each part, and run `claimStep` over the
parts. -/
def extractClaim (title : RStr) : Except Error (Option Nat) :=
  claimLoop none ((splitOnChar '|' (lowerStr title)).map trimStr)

/-- The best candidate tracked by the matching loop (`struct Match` in
`match_pr_to_assignment`). -/
structure BestMatch where
  match_count : Nat
  sprint_index : Nat
  assignment_index : Nat
  optionality : AssignmentOptionality
deriving DecidableEq, Repr

/-- The match count of the best candidate so far
(`best_match.map(|m| m.match_count).unwrap_or_default()`). -/
def bestCount : Option BestMatch → Nat
  | some bm => bm.match_count
  | none => 0

/-- The PR-title token set used by the matching loop: `title_word_set` of
the raw title, with `sprintN` injected when sprint `N` is claimed. -/
def prTitleWords (title : RStr) (claimed : Option Nat) : List RStr :=
  let words := title_word_set title
  match claimed with
  | some claimed_sprint_index =>
    insertIdx words ("sprint".data ++ natChars (claimed_sprint_index + 1))
  | none => words

/-- The assignment-title token set used by the matching loop:
`make_title_more_matchable`, with `sprintN` and `weekN` injected when sprint
`N` is claimed and the set already contains the token `sprint`. -/
def assignmentTitleWords (expected_title : RStr) (claimed : Option Nat) :
    List RStr :=
  let words := make_title_more_matchable expected_title
  match claimed with
  | some claimed_sprint_index =>
    if "sprint".data ∈ words then
      insertIdx
        (insertIdx words
          ("sprint".data ++ natChars (claimed_sprint_index + 1)))
        ("week".data ++ natChars (claimed_sprint_index + 1))
    else words
  | none => words

/-- The submission state stored at one `(sprint, assignment)` position;
`none` when either index is out of range. -/
def stateAt (submissions : List SprintWithSubmissions) (si ai : Nat) :
    Option SubmissionState :=
  match submissions[si]? with
  | some sprint => sprint.submissions[ai]?
  | none => none

/-- Overwrite the submission state at one position; `none` models the panic
of an out-of-range slice index. -/
def setStateAt (submissions : List SprintWithSubmissions) (si ai : Nat)
    (st : SubmissionState) : Option (List SprintWithSubmissions) :=
  match submissions[si]? with
  | none => none
  | some sprint =>
    match sprint.submissions[ai]? with
    | none => none
    | some _ => some (submissions.set si ⟨sprint.submissions.set ai st⟩)

/-- All `(sprint index, assignment index, assignment)` triples of a module,
in the iteration order of the nested matching loops: sprint order first,
assignment order within each sprint. -/
def enumCandidates (assignments : List Sprint) :
    List (Nat × Nat × Assignment) :=
  (assignments.enum).flatMap
    (fun p => (p.2.assignments.enum).map (fun q => (p.1, q.1, q.2)))

/-- Whether the matching loop skips a sprint (`continue` when a claim exists
and names a different sprint). -/
def claimedSkip (claimed : Option Nat) (si : Nat) : Bool :=
  match claimed with
  | some claimed_sprint_index => decide (claimed_sprint_index ≠ si)
  | none => false

/-- One step of the candidate scan in `match_pr_to_assignment`, transcribed
from the nested loop body: skip non-claimed sprints and attendance slots,
read the slot state (`none` = out-of-range panic), and replace the best
candidate when the slot is unfilled and its match count is strictly
greater. -/
def stepCandidate (claimed : Option Nat)
    (submissions : List SprintWithSubmissions) (prw : List RStr)
    (best : Option BestMatch) (c : Nat × Nat × Assignment) :
    Option (Option BestMatch) :=
  if claimedSkip claimed c.1 then some best
  else
    match c.2.2 with
    | Assignment.Attendance _ => some best
    | Assignment.ExpectedPullRequest expected_title _ optionality =>
      let assignment_title_words := assignmentTitleWords expected_title claimed
      let match_count := matchCount assignment_title_words prw
      match stateAt submissions c.1 c.2.1 with
      | none => none
      | some st =>
        if st.is_submitted = false ∧ bestCount best < match_count then
          some (some ⟨match_count, c.1, c.2.1, optionality⟩)
        else some best

/-- The candidate loop of `match_pr_to_assignment`, with `none` propagating
an out-of-range panic. -/
def scanLoop (claimed : Option Nat) (submissions : List SprintWithSubmissions)
    (prw : List RStr) (best : Option BestMatch) :
    List (Nat × Nat × Assignment) → Option (Option BestMatch)
  | [] => some best
  | c :: cs =>
    match stepCandidate claimed submissions prw best c with
    | none => none
    | some best' => scanLoop claimed submissions prw best' cs

/-- The candidate scan of `match_pr_to_assignment`: run the loop body over
every slot in iteration order, starting from no best candidate. -/
def scanCandidates (pr : Pr) (claimed : Option Nat)
    (assignments : List Sprint) (submissions : List SprintWithSubmissions) :
    Option (Option BestMatch) :=
  scanLoop claimed submissions (prTitleWords pr.title claimed) none
    (enumCandidates assignments)

/-- The matcher `match_pr_to_assignment`: scan for the best open slot; write
the PR into it when one was found, otherwise append the PR to `unknown_prs`
unless it is closed.  `none` models an out-of-range panic. -/
def match_pr_to_assignment (pr : Pr) (claimed_sprint_index : Option Nat)
    (assignments : List Sprint) (submissions : List SprintWithSubmissions)
    (unknown_prs : List Pr) :
    Option (List SprintWithSubmissions × List Pr) :=
  match scanCandidates pr claimed_sprint_index assignments submissions with
  | none => none
  | some none =>
    some (submissions,
      if pr.is_closed then unknown_prs else unknown_prs ++ [pr])
  | some (some best_match) =>
    match setStateAt submissions best_match.sprint_index
        best_match.assignment_index
        (SubmissionState.Some
          (Submission.PullRequest pr best_match.optionality)) with
    | none => none
    | some submissions' => some (submissions', unknown_prs)

/-- The PR loop of `match_prs_to_assignments`: extract each PR's sprint
claim and resolve it against the grid.  The outer `Option` models a panic,
the inner `Except` the fatal claim errors. -/
def prsLoop (assignments : List Sprint)
    (submissions : List SprintWithSubmissions) (unknown_prs : List Pr) :
    List Pr → Option (Except Error (List SprintWithSubmissions × List Pr))
  | [] => some (Except.ok (submissions, unknown_prs))
  | pr :: rest =>
    match extractClaim pr.title with
    | Except.error e => some (Except.error e)
    | Except.ok claimed =>
      match match_pr_to_assignment pr claimed assignments submissions
          unknown_prs with
      | none => none
      | some (submissions', unknown') =>
        prsLoop assignments submissions' unknown' rest

/-- The matching engine `match_prs_to_assignments`: seed the grid, overlay
attendance, then run the PR loop. -/
def match_prs_to_assignments (now : Nat) (module : Module) (prs : List Pr)
    (attendance : List SubmissionState) (region : Region) :
    Option (Except Error ModuleWithSubmissions) :=
  match prsLoop module.sprints (seedModule now module attendance region) []
      prs with
  | none => none
  | some (Except.error e) => some (Except.error e)
  | some (Except.ok (sprints, unknown_prs)) =>
    some (Except.ok ⟨sprints, unknown_prs⟩)

/-- Specification-side description of one scored candidate slot, following
the spec's step-3 wording: a slot takes part in the search exactly when its
sprint is the claimed one (any sprint when there is no claim), it expects a
pull request, and it is not already filled; its score is the size of the
intersection of the assignment's token set and the PR's token set. -/
def candScore (claimed : Option Nat)
    (submissions : List SprintWithSubmissions) (prw : List RStr)
    (c : Nat × Nat × Assignment) : Option BestMatch :=
  if claimedSkip claimed c.1 then none
  else
    match c.2.2 with
    | Assignment.Attendance _ => none
    | Assignment.ExpectedPullRequest expected_title _ optionality =>
      match stateAt submissions c.1 c.2.1 with
      | none => none
      | some st =>
        if st.is_submitted then none
        else some ⟨matchCount (assignmentTitleWords expected_title claimed) prw,
          c.1, c.2.1, optionality⟩

/-- Specification-side list of all scored candidate slots for one PR, in
sprint-then-assignment order. -/
def specScoredSlots (pr : Pr) (claimed : Option Nat)
    (assignments : List Sprint) (submissions : List SprintWithSubmissions) :
    List BestMatch :=
  (enumCandidates assignments).filterMap
    (candScore claimed submissions (prTitleWords pr.title claimed))

/-- The largest match count among a list of scored candidates. -/
def maxCount (l : List BestMatch) : Nat :=
  (l.map (fun b => b.match_count)).foldr max 0

/-- The strict-greater-than best-candidate update, as one pure step. -/
def argStep (best : Option BestMatch) (x : BestMatch) : Option BestMatch :=
  if bestCount best < x.match_count then some x else best

/-- Specification-side best-match selection: no candidate is selected when
every match count is zero; otherwise the first candidate (in iteration
order) attaining the maximum match count wins, so ties go to the
first-encountered slot. -/
def specBestMatch (pr : Pr) (claimed : Option Nat)
    (assignments : List Sprint) (submissions : List SprintWithSubmissions) :
    Option BestMatch :=
  let scored := specScoredSlots pr claimed assignments submissions
  if maxCount scored = 0 then none
  else scored.find? (fun b => decide (b.match_count = maxCount scored))

/-- The in-bounds hypothesis of the matching loops: every enumerated
candidate position exists in the submission grid (true by construction of
the grid in `match_prs_to_assignments`). -/
def gridCovers (assignments : List Sprint)
    (submissions : List SprintWithSubmissions) : Prop :=
  ∀ c ∈ enumCandidates assignments, (stateAt submissions c.1 c.2.1).isSome = true

instance (assignments : List Sprint) (submissions : List SprintWithSubmissions) :
    Decidable (gridCovers assignments submissions) :=
  List.decidableBAll _ _

/-- The trimmed, lowercased `|`-separated parts of a PR title, as the claim
extraction sees them. -/
def claimParts (title : RStr) : List RStr :=
  (splitOnChar '|' (lowerStr title)).map trimStr

/-- Whether a title part takes part in sprint-claim extraction: it starts
with `sprint` or `week` and contains a digit run. -/
def claimRelevant (part : RStr) : Bool :=
  (startsWith "sprint".data part || startsWith "week".data part) &&
    (firstDigitRun part).isSome

/-- The parsed sprint numbers of all claim-relevant parts of a title, in
order. -/
def claimNumbers (title : RStr) : List Nat :=
  ((claimParts title).filter claimRelevant).filterMap
    (fun part => (firstDigitRun part).bind parseUsizeStr)

/-- Specification-side claim extraction: the last claim-relevant part wins,
and its claimed sprint index is its first digit run's value minus one. -/
def specClaim (title : RStr) : Option Nat :=
  (((claimParts title).filter claimRelevant).getLast?).bind
    (fun part => ((firstDigitRun part).bind parseUsizeStr).map (fun n => n - 1))

/-- The last claim-relevant part of a title, in the looser sense used by the
published specification: the last part starting with `sprint` or `week`,
whether or not it contains any digit. -/
def lastClaimPart (title : RStr) : Option RStr :=
  ((claimParts title).filter
    (fun part =>
      startsWith "sprint".data part || startsWith "week".data part)).getLast?

/-- Whether every parsed claim number of a title passes the `[1, 20]` range
check and fits in `usize`. -/
def claimNumbersOk (title : RStr) : Prop :=
  (∀ n ∈ claimNumbers title, 1 ≤ n ∧ n ≤ 20) ∧
    ∀ part ∈ (claimParts title).filter claimRelevant,
      ((firstDigitRun part).bind parseUsizeStr).isSome = true

instance (title : RStr) : Decidable (claimNumbersOk title) :=
  instDecidableAnd

/-- Insert a token into a sorted token list, keeping it sorted by the
lexicographic order on characters. -/
def insertSorted (x : RStr) : List RStr → List RStr
  | [] => [x]
  | y :: ys => if decide (x ≤ y) then x :: y :: ys else y :: insertSorted x ys

/-- Sort a token list lexicographically by insertion sort. -/
def sortTokens (l : List RStr) : List RStr := l.foldr insertSorted []

/-- Join a token list into a single space-separated string. -/
def joinSpace : List RStr → RStr
  | [] => []
  | [x] => x
  | x :: y :: rest => x ++ ' ' :: joinSpace (y :: rest)

/-- The number of labels carrying the sprint-label text. -/
def sprintLabelCount (labels : List Label) : Nat :=
  (labels.filter (fun l => (dropPre sprintLabelText l.name).isSome)).length

/-- A concrete issue with two sprint labels, a `Submit:PR` label and a
mandatory priority label. -/
def issueTwoSprints : Issue :=
  ⟨[⟨sprintLabelText ++ "1".data⟩, ⟨sprintLabelText ++ "2".data⟩,
    ⟨"Submit:PR".data⟩, ⟨mandatoryLabelText⟩],
    "Alarm clock".data, "https://example.test/issue/1".data, false⟩

/-- A concrete issue with one sprint label and a `Submit:None` label, and no
priority label. -/
def issueNoPriority : Issue :=
  ⟨[⟨sprintLabelText ++ "1".data⟩, ⟨"Submit:None".data⟩],
    "Quiz".data, "https://example.test/issue/2".data, false⟩

/-- A concrete expected-pull-request assignment. -/
def eprAlarm : Assignment :=
  Assignment.ExpectedPullRequest "alarm clock".data
    "https://example.test/a".data AssignmentOptionality.Mandatory

/-- A concrete sprint holding only `eprAlarm`. -/
def sprintAlarm : Sprint := ⟨[eprAlarm], []⟩

/-- A concrete matching pull request. -/
def prAlarmFirst : Pr :=
  ⟨7, "u7".data, "alarm clock".data, PrState.Complete, false⟩

/-- A second concrete matching pull request. -/
def prAlarmSecond : Pr :=
  ⟨8, "u8".data, "alarm clock".data, PrState.NeedsReview, false⟩

/-- A concrete pull request matching nothing. -/
def prNoMatch : Pr := ⟨9, "u9".data, "zzz".data, PrState.Unknown, false⟩

/-- A concrete pull request claiming the out-of-range sprint 25. -/
def prBadClaim : Pr :=
  ⟨10, "u10".data, "Sprint 25 | zzz".data, PrState.Unknown, false⟩

/-- A concrete submission wrapping `prAlarmFirst`. -/
def subAlarm : Submission :=
  Submission.PullRequest prAlarmFirst AssignmentOptionality.Mandatory

/-- A one-slot grid whose only slot is already filled. -/
def subsFilled : List SprintWithSubmissions :=
  [⟨[SubmissionState.Some subAlarm]⟩]

/-- A one-slot grid whose only slot is still open. -/
def subsOpen : List SprintWithSubmissions :=
  [⟨[SubmissionState.MissingButExpected eprAlarm]⟩]

theorem scoreStep_eq (acc : Nat × Nat) (s : SubmissionState) :
    scoreStep acc s = (acc.1 + submissionNumer s, acc.2 + submissionDenom s) := by
  rcases s with (a | ⟨pr, opt⟩) | a | a | a
  · rcases a with _ | _ | _ | _ <;> rfl
  · rcases pr with ⟨n, u, t, st, c⟩
    rcases st <;> rcases opt <;> rfl
  · rcases a with _ | _ <;> rfl
  · rfl
  · rfl

theorem foldl_scoreStep (l : List SubmissionState) (n d : Nat) :
    l.foldl scoreStep (n, d) =
      (n + (l.map submissionNumer).sum, d + (l.map submissionDenom).sum) := by
  induction l generalizing n d with
  | nil => simp
  | cons s rest ih =>
    simp only [List.foldl_cons, scoreStep_eq, List.map_cons, List.sum_cons]
    rw [ih]
    simp [Nat.add_assoc]


theorem foldl_scoreStep_sprints (sprints : List SprintWithSubmissions)
    (n d : Nat) :
    sprints.foldl (fun acc sprint => sprint.submissions.foldl scoreStep acc)
        (n, d) =
      (n + ((sprints.flatMap (fun s => s.submissions)).map submissionNumer).sum,
        d + ((sprints.flatMap (fun s => s.submissions)).map submissionDenom).sum) := by
  induction sprints generalizing n d with
  | nil => simp
  | cons sp rest ih =>
    simp only [List.foldl_cons, List.flatMap_cons, List.map_append,
      List.sum_append]
    rw [foldl_scoreStep, ih]
    simp [Nat.add_assoc]

theorem foldl_scoreStep_modules
    (modules : List (RStr × ModuleWithSubmissions)) (n d : Nat) :
    modules.foldl
      (fun acc m =>
        m.2.sprints.foldl
          (fun acc sprint => sprint.submissions.foldl scoreStep acc) acc)
      (n, d) =
      (n + ((modules.flatMap
          (fun m => m.2.sprints.flatMap (fun s => s.submissions))).map
          submissionNumer).sum,
        d + ((modules.flatMap
          (fun m => m.2.sprints.flatMap (fun s => s.submissions))).map
          submissionDenom).sum) := by
  induction modules generalizing n d with
  | nil => simp
  | cons m rest ih =>
    simp only [List.foldl_cons, List.flatMap_cons, List.map_append,
      List.sum_append]
    rw [foldl_scoreStep_sprints, ih]
    simp [Nat.add_assoc]

theorem submissionNumer_le_denom (s : SubmissionState) :
    submissionNumer s ≤ submissionDenom s := by
  rcases s with (a | ⟨pr, opt⟩) | a | a | a
  · rcases a with _ | _ | _ | _ <;> simp [submissionNumer, submissionDenom]
  · rcases pr with ⟨n, u, t, st, c⟩
    rcases st <;> rcases opt <;> simp [submissionNumer, submissionDenom]
  · rcases a with _ | _ <;> simp [submissionNumer, submissionDenom]
  · simp [submissionNumer, submissionDenom]
  · simp [submissionNumer, submissionDenom]

theorem progress_score_eq (t : TraineeWithSubmissions) :
    progress_score t =
      if ((allSubmissions t).map submissionDenom).sum = 0 then 0
      else 10000 * ((allSubmissions t).map submissionNumer).sum /
          ((allSubmissions t).map submissionDenom).sum := by
  unfold progress_score
  rw [show (0, 0) = ((0 : Nat), (0 : Nat)) from rfl, foldl_scoreStep_modules]
  simp [allSubmissions]

/-- C4.  `progress_score` accumulates exactly the per-state
numerator/denominator contributions the specification tables (attendance
OnTime/Late/WrongDay/Absent = 10/8/3/0 over 10; matched PR over 10 or 12
with numerator the denominator when Complete, 6 when NeedsReview or
Reviewed, 2 when Unknown; `MissingButExpected` 0 over 20 or 10;
`MissingStretch` 0 over 2; `MissingButNotExpected` nothing) and returns
`floor(10000 * numerator / denominator)`, or 0 when the denominator is
zero. -/
theorem progress_score_matches_spec_table (t : TraineeWithSubmissions) :
    progress_score t =
      if ((allSubmissions t).map submissionDenom).sum = 0 then 0
      else 10000 * ((allSubmissions t).map submissionNumer).sum /
          ((allSubmissions t).map submissionDenom).sum :=
  progress_score_eq t

/-- C8.  `progress_score` always lies in `[0, 10000]`, and is `0` when every
submission state is `MissingButNotExpected`. -/
theorem progress_score_bounded (t : TraineeWithSubmissions) :
    progress_score t ≤ 10000 ∧
      ((∀ s ∈ allSubmissions t, s.isNotYetExpected = true) →
        progress_score t = 0) := by
  constructor
  · rw [progress_score_eq]
    by_cases hd : ((allSubmissions t).map submissionDenom).sum = 0
    · simp [hd]
    · rw [if_neg hd]
      have hle : ((allSubmissions t).map submissionNumer).sum ≤
          ((allSubmissions t).map submissionDenom).sum :=
        List.sum_le_sum (fun s _ => submissionNumer_le_denom s)

      calc 10000 * ((allSubmissions t).map submissionNumer).sum /
            ((allSubmissions t).map submissionDenom).sum
          ≤ 10000 * ((allSubmissions t).map submissionDenom).sum /
            ((allSubmissions t).map submissionDenom).sum :=
            Nat.div_le_div_right (Nat.mul_le_mul_left _ hle)
        _ = 10000 := Nat.mul_div_cancel _ (Nat.pos_of_ne_zero hd)
  · intro h
    rw [progress_score_eq]
    have hd : ((allSubmissions t).map submissionDenom).sum = 0 := by
      apply List.sum_eq_zero
      intro x hx
      rcases List.mem_map.mp hx with ⟨s, hs, rfl⟩
      have := h s hs
      rcases s with _ | _ | _ | _ <;>
        simp_all [SubmissionState.isNotYetExpected, submissionDenom]
    simp [hd]

/-- C8 witness at a concrete trainee whose only submission state is
`MissingButNotExpected`. -/
theorem progress_score_bounded_witness :
    progress_score
        ⟨[("m".data,
          ⟨[⟨[SubmissionState.MissingButNotExpected
            (Assignment.ExpectedPullRequest "x".data "y".data
              AssignmentOptionality.Mandatory)]⟩], []⟩)]⟩ ≤ 10000 ∧
      progress_score
        ⟨[("m".data,
          ⟨[⟨[SubmissionState.MissingButNotExpected
            (Assignment.ExpectedPullRequest "x".data "y".data
              AssignmentOptionality.Mandatory)]⟩], []⟩)]⟩ = 0 :=
  ⟨(progress_score_bounded _).1, (progress_score_bounded _).2 (by decide)⟩

theorem sprintPart_ok_length (url : RStr) (st : LabelScan) (label : Label)
    (st1 : LabelScan) (h : sprintPart url st label = Except.ok st1) :
    st1.sprints.length = st.sprints.length +
      (if (dropPre sprintLabelText label.name).isSome then 1 else 0) := by
  unfold sprintPart at h
  split at h
  · rename_i rest hd
    split at h
    · cases h
      simp [hd]
    · cases h
  · rename_i hd
    cases h
    simp [hd]

theorem submitPart_ok_sprints (url : RStr) (st : LabelScan) (label : Label)
    (st1 : LabelScan) (h : submitPart url st label = Except.ok st1) :
    st1.sprints = st.sprints := by
  unfold submitPart at h
  split at h
  · split at h
    · cases h
    · cases h; rfl
  · cases h; rfl

theorem priorityPart_ok_sprints (url : RStr) (st : LabelScan) (label : Label)
    (st1 : LabelScan) (h : priorityPart url st label = Except.ok st1) :
    st1.sprints = st.sprints := by
  unfold priorityPart at h
  split at h
  · split at h
    · cases h
    · cases h; rfl
  · split at h
    · split at h
      · cases h
      · cases h; rfl
    · cases h; rfl

theorem scanLabel_ok_length (url : RStr) (st : LabelScan) (label : Label)
    (st' : LabelScan) (h : scanLabel url st label = Except.ok st') :
    st'.sprints.length = st.sprints.length +
      (if (dropPre sprintLabelText label.name).isSome then 1 else 0) := by
  unfold scanLabel at h
  split at h
  · cases h
  · rename_i st1 h1
    split at h
    · cases h
    · rename_i st2 h2
      rw [priorityPart_ok_sprints url st2 label st' h,
        submitPart_ok_sprints url st1 label st2 h2]
      exact sprintPart_ok_length url st label st1 h1

theorem scan_ok_length (url : RStr) (ls : List Label) :
    ∀ st st', scanLabels url st ls = Except.ok st' →
      st'.sprints.length = st.sprints.length + sprintLabelCount ls := by
  induction ls with
  | nil =>
    intro st st' h
    cases h
    simp [sprintLabelCount]
  | cons l ls ih =>
    intro st st' h
    unfold scanLabels at h
    split at h
    · cases h
    · rename_i st1 h1
      have hrec := ih st1 st' h
      have hstep := scanLabel_ok_length url st l st1 h1
      rw [hrec, hstep]
      simp only [sprintLabelCount, List.filter_cons]
      cases hd : (dropPre sprintLabelText l.name).isSome <;>
        simp [hd, Nat.add_assoc, Nat.add_comm 1]

/-- C1 counterexample: an issue that is not a pull request, carrying two
sprint labels together with `Submit:PR` and a priority label, is rejected by
`parse_issue` with the exactly-one-sprint-label error instead of producing
one assignment per sprint label. -/
theorem parse_issue_two_sprints_rejected :
    parse_issue issueTwoSprints =
      Except.error (Error.UserFacing
        (sprintCountMsg "https://example.test/issue/1".data 2)) := by
  rfl

/-- C1 (amended).  An issue that is not a pull request and carries more than
one sprint label never parses successfully: `parse_issue` returns a parse
error (a single sprint label would produce the single
`(sprint, assignment)` pair). -/
theorem parse_issue_multi_sprint_error (issue : Issue)
    (hpr : issue.is_pull_request = false)
    (hcount : 2 ≤ sprintLabelCount issue.labels) :
    ∃ e, parse_issue issue = Except.error e := by
  unfold parse_issue
  rw [hpr]
  simp only [Bool.false_eq_true, if_false]
  cases hscan : scanLabels issue.html_url initScan issue.labels
  · exact ⟨_, rfl⟩
  · rename_i st
    have hlen := scan_ok_length issue.html_url issue.labels initScan st hscan
    simp only [initScan, List.length_nil, Nat.zero_add] at hlen
    obtain ⟨sprints, submit, opt⟩ := st
    simp only at hlen
    show ∃ e, finishScan issue ⟨sprints, submit, opt⟩ = Except.error e
    unfold finishScan
    cases submit
    · exact ⟨_, rfl⟩
    · cases opt
      · exact ⟨_, rfl⟩
      · rename_i submit opt
        simp only
        cases hch : chooseAssignment issue submit opt
        · exact ⟨_, rfl⟩
        · cases sprints with
          | nil => simp at hlen; omega
          | cons a rest =>
            cases rest with
            | nil => simp at hlen; omega
            | cons b rest' => exact ⟨_, rfl⟩

/-- C1 amended-theorem witness at the concrete two-sprint issue. -/
theorem parse_issue_multi_sprint_error_witness :
    ∃ e, parse_issue issueTwoSprints = Except.error e :=
  parse_issue_multi_sprint_error issueTwoSprints (by decide) (by decide)

/-- C2 counterexample: an issue whose submit label is `Submit:None` (a
non-assignment-producing kind) and which has no priority label is rejected
by `parse_issue` with the missing-priority-label error, although the claim
says no priority error should be raised in that case. -/
theorem parse_issue_none_needs_priority :
    parse_issue issueNoPriority =
      Except.error (Error.UserFacing
        (noPriorityMsg "https://example.test/issue/2".data)) := by
  rfl

/-- C2 (amended).  The missing-priority-label error is raised whenever a
submit label is present — of any kind, assignment-producing or not — and no
priority label was found. -/
theorem parse_issue_missing_priority_error (issue : Issue)
    (hpr : issue.is_pull_request = false) (st : LabelScan)
    (hscan : scanLabels issue.html_url initScan issue.labels = Except.ok st)
    (hsub : st.submit_label.isSome = true)
    (hopt : st.optionality = none) :
    parse_issue issue =
      Except.error (Error.UserFacing (noPriorityMsg issue.html_url)) := by
  unfold parse_issue
  rw [hpr]
  simp only [Bool.false_eq_true, if_false]
  rw [hscan]
  obtain ⟨sprints, submit, opt⟩ := st
  simp only at hsub hopt
  cases submit
  · cases hsub
  · rw [hopt]
    rfl

/-- C2 amended-theorem witness at the concrete `Submit:None` issue. -/
theorem parse_issue_missing_priority_error_witness :
    parse_issue issueNoPriority =
      Except.error (Error.UserFacing
        (noPriorityMsg "https://example.test/issue/2".data)) :=
  parse_issue_missing_priority_error issueNoPriority (by decide)
    ⟨[1], some "None".data, none⟩ (by rfl) (by decide) (by decide)

theorem char_toNat_ofNat_valid (n : Nat) (h : n < 55296) :
    (Char.ofNat n).toNat = n := by
  simp only [Char.ofNat, Nat.isValidChar]
  rw [dif_pos (Or.inl h)]
  rfl

theorem toLower_idem (c : Char) : c.toLower.toLower = c.toLower := by
  unfold Char.toLower
  by_cases h : c.toNat ≥ 65 ∧ c.toNat ≤ 90
  · rw [if_pos h]
    have hv : (Char.ofNat (c.toNat + 32)).toNat = c.toNat + 32 :=
      char_toNat_ofNat_valid _ (by omega)
    have hneg : ¬((Char.ofNat (c.toNat + 32)).toNat ≥ 65 ∧
        (Char.ofNat (c.toNat + 32)).toNat ≤ 90) := by
      rw [hv]; omega
    rw [if_neg hneg]
  · rw [if_neg h, if_neg h]

theorem splitOnChar_ne_nil (d : Char) (s : RStr) : splitOnChar d s ≠ [] := by
  induction s with
  | nil => simp [splitOnChar]
  | cons c cs ih =>
    unfold splitOnChar
    by_cases h : c = d
    · rw [if_pos h]
      simp
    · rw [if_neg h]
      cases hs : splitOnChar d cs <;> simp

theorem mem_splitOnChar_no_delim (d : Char) (s : RStr) :
    ∀ x ∈ splitOnChar d s, d ∉ x := by
  induction s with
  | nil =>
    intro x hx
    simp [splitOnChar] at hx
    simp [hx]
  | cons c cs ih =>
    intro x hx
    unfold splitOnChar at hx
    by_cases h : c = d
    · rw [if_pos h] at hx
      rcases List.mem_cons.mp hx with rfl | hx
      · simp
      · exact ih x hx
    · rw [if_neg h] at hx
      cases hs : splitOnChar d cs <;> rw [hs] at hx
      · rcases List.mem_cons.mp hx with rfl | hx
        · simp
          exact fun hdc => h hdc.symm
        · cases hx
      · rename_i r rs
        rcases List.mem_cons.mp hx with rfl | hx
        · intro hmem
          rcases List.mem_cons.mp hmem with rfl | hmem
          · exact h rfl
          · exact ih r (hs ▸ List.mem_cons_self r rs) hmem
        · exact ih x (hs ▸ List.mem_cons_of_mem r hx)

theorem mem_splitOnChar_chars (d : Char) (s : RStr) :
    ∀ x ∈ splitOnChar d s, ∀ c ∈ x, c ∈ s := by
  induction s with
  | nil =>
    intro x hx
    simp [splitOnChar] at hx
    simp [hx]
  | cons c0 cs ih =>
    intro x hx
    unfold splitOnChar at hx
    by_cases h : c0 = d
    · rw [if_pos h] at hx
      rcases List.mem_cons.mp hx with rfl | hx
      · simp
      · intro c hc
        exact List.mem_cons_of_mem c0 (ih x hx c hc)
    · rw [if_neg h] at hx
      cases hs : splitOnChar d cs <;> rw [hs] at hx
      · rcases List.mem_cons.mp hx with rfl | hx
        · intro c hc
          rcases List.mem_cons.mp hc with rfl | hc
          · exact List.mem_cons_self _ _
          · cases hc
        · cases hx
      · rename_i r rs
        rcases List.mem_cons.mp hx with rfl | hx
        · intro c hc
          rcases List.mem_cons.mp hc with rfl | hc
          · exact List.mem_cons_self _ _
          · exact List.mem_cons_of_mem _
              (ih r (hs ▸ List.mem_cons_self r rs) c hc)
        · intro c hc
          exact List.mem_cons_of_mem _
            (ih x (hs ▸ List.mem_cons_of_mem r hx) c hc)

theorem splitOnChar_no_delim (d : Char) (s : RStr) (h : d ∉ s) :
    splitOnChar d s = [s] := by
  induction s with
  | nil => rfl
  | cons c cs ih =>
    have hcd : ¬(c = d) := fun he => h (he ▸ List.mem_cons_self c cs)
    have hcs : d ∉ cs := fun hm => h (List.mem_cons_of_mem c hm)
    unfold splitOnChar
    rw [if_neg hcd, ih hcs]

theorem splitOnChar_cons_eq (d c : Char) (cs : RStr) :
    splitOnChar d (c :: cs) =
      if c = d then [] :: splitOnChar d cs
      else
        match splitOnChar d cs with
        | [] => [[c]]
        | r :: rs => (c :: r) :: rs := rfl

theorem splitOnChar_append (d : Char) (x rest : RStr) (h : d ∉ x) :
    splitOnChar d (x ++ d :: rest) = x :: splitOnChar d rest := by
  induction x with
  | nil =>
    show splitOnChar d (d :: rest) = [] :: splitOnChar d rest
    rw [splitOnChar_cons_eq, if_pos rfl]
  | cons c cs ih =>
    have hcd : ¬(c = d) := fun he => h (he ▸ List.mem_cons_self c cs)
    have hcs : d ∉ cs := fun hm => h (List.mem_cons_of_mem c hm)
    show splitOnChar d (c :: (cs ++ d :: rest)) = (c :: cs) :: splitOnChar d rest
    rw [splitOnChar_cons_eq, if_neg hcd, ih hcs]

theorem splitOnChar_joinSpace (l : List RStr) (hne : l ≠ [])
    (h : ∀ x ∈ l, ' ' ∉ x) : splitOnChar ' ' (joinSpace l) = l := by
  induction l with
  | nil => exact absurd rfl hne
  | cons x xs ih =>
    cases xs with
    | nil =>
      show splitOnChar ' ' x = [x]
      exact splitOnChar_no_delim ' ' x (h x (List.mem_cons_self _ _))
    | cons y ys =>
      show splitOnChar ' ' (x ++ ' ' :: joinSpace (y :: ys)) = x :: y :: ys
      rw [splitOnChar_append ' ' x _ (h x (List.mem_cons_self _ _))]
      rw [ih (by simp) (fun z hz => h z (List.mem_cons_of_mem x hz))]

theorem mem_insertIdx (s : List RStr) (y x : RStr) :
    x ∈ insertIdx s y ↔ x ∈ s ∨ x = y := by
  unfold insertIdx
  by_cases h : y ∈ s
  · rw [if_pos h]
    constructor
    · exact Or.inl
    · rintro (hx | rfl)
      · exact hx
      · exact h
  · rw [if_neg h]
    simp

theorem mem_foldl_insertIdx (l : List RStr) :
    ∀ acc x, x ∈ l.foldl insertIdx acc ↔ x ∈ acc ∨ x ∈ l := by
  induction l with
  | nil => simp
  | cons y ys ih =>
    intro acc x
    rw [List.foldl_cons, ih, mem_insertIdx]
    simp
    tauto

theorem mem_collectSet (l : List RStr) (x : RStr) :
    x ∈ collectSet l ↔ x ∈ l := by
  unfold collectSet
  rw [mem_foldl_insertIdx]
  simp

theorem flatMap_splitOnChar_id (d : Char) (l : List RStr)
    (h : ∀ x ∈ l, d ∉ x) : l.flatMap (splitOnChar d) = l := by
  induction l with
  | nil => rfl
  | cons x xs ih =>
    rw [List.flatMap_cons,
      splitOnChar_no_delim d x (h x (List.mem_cons_self _ _)),
      ih (fun z hz => h z (List.mem_cons_of_mem x hz))]
    rfl

theorem flatMap_ne_nil (f : RStr → List RStr) (l : List RStr) (hne : l ≠ [])
    (h : ∀ x ∈ l, f x ≠ []) : l.flatMap f ≠ [] := by
  cases l with
  | nil => exact absurd rfl hne
  | cons x xs =>
    rw [List.flatMap_cons]
    intro hcontr
    exact h x (List.mem_cons_self _ _) (List.append_eq_nil.mp hcontr).1

theorem title_word_set_ne_nil (t : RStr) : title_word_set t ≠ [] := by
  unfold title_word_set
  have h0 : splitOnChar ' ' (lowerStr t) ≠ [] := splitOnChar_ne_nil _ _
  have h1 := flatMap_ne_nil _ _ h0 (fun x _ => splitOnChar_ne_nil '_' x)
  have h2 := flatMap_ne_nil _ _ h1 (fun x _ => splitOnChar_ne_nil '-' x)
  have h3 := flatMap_ne_nil _ _ h2 (fun x _ => splitOnChar_ne_nil '/' x)
  have h4 := flatMap_ne_nil _ _ h3 (fun x _ => splitOnChar_ne_nil '|' x)
  cases hs : (((((splitOnChar ' ' (lowerStr t)).flatMap (splitOnChar '_')).flatMap
      (splitOnChar '-')).flatMap (splitOnChar '/')).flatMap (splitOnChar '|')) with
  | nil => exact absurd hs h4
  | cons a rest =>
    have : a ∈ collectSet (a :: rest) := (mem_collectSet _ _).mpr
      (List.mem_cons_self _ _)
    exact List.ne_nil_of_mem this

theorem tws_token_chars (t w : RStr) (hw : w ∈ title_word_set t) :
    (' ' ∉ w ∧ '_' ∉ w ∧ '-' ∉ w ∧ '/' ∉ w ∧ '|' ∉ w) ∧
      ∀ c ∈ w, Char.toLower c = c := by
  unfold title_word_set at hw
  rw [mem_collectSet] at hw
  rw [List.mem_flatMap] at hw
  obtain ⟨a3, ha3, hw4⟩ := hw
  rw [List.mem_flatMap] at ha3
  obtain ⟨a2, ha2, hw3⟩ := ha3
  rw [List.mem_flatMap] at ha2
  obtain ⟨a1, ha1, hw2⟩ := ha2
  rw [List.mem_flatMap] at ha1
  obtain ⟨a0, ha0, hw1⟩ := ha1
  have hsubw3 : ∀ c ∈ w, c ∈ a3 := mem_splitOnChar_chars '|' a3 w hw4
  have hsubw2 : ∀ c ∈ w, c ∈ a2 := fun c hc =>
    mem_splitOnChar_chars '/' a2 a3 hw3 c (hsubw3 c hc)
  have hsubw1 : ∀ c ∈ w, c ∈ a1 := fun c hc =>
    mem_splitOnChar_chars '-' a1 a2 hw2 c (hsubw2 c hc)
  have hsubw0 : ∀ c ∈ w, c ∈ a0 := fun c hc =>
    mem_splitOnChar_chars '_' a0 a1 hw1 c (hsubw1 c hc)
  have hsublow : ∀ c ∈ w, c ∈ lowerStr t := fun c hc =>
    mem_splitOnChar_chars ' ' (lowerStr t) a0 ha0 c (hsubw0 c hc)
  refine ⟨⟨?_, ?_, ?_, ?_, ?_⟩, ?_⟩
  · exact fun hsp =>
      mem_splitOnChar_no_delim ' ' (lowerStr t) a0 ha0 (hsubw0 ' ' hsp)
  · exact fun hsp =>
      mem_splitOnChar_no_delim '_' a0 a1 hw1 (hsubw1 '_' hsp)
  · exact fun hsp =>
      mem_splitOnChar_no_delim '-' a1 a2 hw2 (hsubw2 '-' hsp)
  · exact fun hsp =>
      mem_splitOnChar_no_delim '/' a2 a3 hw3 (hsubw3 '/' hsp)
  · exact fun hsp => mem_splitOnChar_no_delim '|' a3 w hw4 hsp
  · intro c hc
    have := hsublow c hc
    unfold lowerStr at this
    rw [List.mem_map] at this
    obtain ⟨c0, _, rfl⟩ := this
    exact toLower_idem c0

theorem mem_insertSorted (x y : RStr) (l : List RStr) :
    y ∈ insertSorted x l ↔ y = x ∨ y ∈ l := by
  induction l with
  | nil => simp [insertSorted]
  | cons z zs ih =>
    unfold insertSorted
    by_cases h : decide (x ≤ z) = true
    · rw [if_pos h]
      simp
    · rw [if_neg h]
      rw [List.mem_cons, ih]
      simp
      tauto

theorem mem_sortTokens (l : List RStr) (y : RStr) :
    y ∈ sortTokens l ↔ y ∈ l := by
  unfold sortTokens
  induction l with
  | nil => simp
  | cons x xs ih =>
    rw [List.foldr_cons, mem_insertSorted, ih]
    simp

theorem length_insertSorted (x : RStr) (l : List RStr) :
    (insertSorted x l).length = l.length + 1 := by
  induction l with
  | nil => rfl
  | cons z zs ih =>
    unfold insertSorted
    by_cases h : decide (x ≤ z) = true
    · rw [if_pos h]
      simp
    · rw [if_neg h]
      simp [ih]

theorem sortTokens_ne_nil (l : List RStr) (h : l ≠ []) : sortTokens l ≠ [] := by
  cases l with
  | nil => exact absurd rfl h
  | cons x xs =>
    show insertSorted x (sortTokens xs) ≠ []
    intro hc
    have := length_insertSorted x (sortTokens xs)
    rw [hc] at this
    simp at this

theorem mem_joinSpace (l : List RStr) (c : Char) (hc : c ∈ joinSpace l) :
    c = ' ' ∨ ∃ x ∈ l, c ∈ x := by
  induction l with
  | nil => cases hc
  | cons x xs ih =>
    cases xs with
    | nil =>
      exact Or.inr ⟨x, List.mem_cons_self _ _, hc⟩
    | cons y ys =>
      have : c ∈ x ++ ' ' :: joinSpace (y :: ys) := hc
      rw [List.mem_append, List.mem_cons] at this
      rcases this with hx | rfl | hrest
      · exact Or.inr ⟨x, List.mem_cons_self _ _, hx⟩
      · exact Or.inl rfl
      · rcases ih hrest with h | ⟨z, hz, hcz⟩
        · exact Or.inl h
        · exact Or.inr ⟨z, List.mem_cons_of_mem x hz, hcz⟩

theorem lowerStr_fixed (s : RStr) (h : ∀ c ∈ s, Char.toLower c = c) :
    lowerStr s = s := by
  unfold lowerStr
  induction s with
  | nil => rfl
  | cons c cs ih =>
    rw [List.map_cons, h c (List.mem_cons_self _ _),
      ih (fun z hz => h z (List.mem_cons_of_mem c hz))]

/-- C9.  Tokenizing the space-join of the sorted tokens of a token set
produced by `title_word_set` yields a set containing every original token
(idempotence up to superset; in fact the members coincide). -/
theorem tokenize_join_superset (title w : RStr)
    (hw : w ∈ title_word_set title) :
    w ∈ title_word_set (joinSpace (sortTokens (title_word_set title))) := by
  set s := title_word_set title with hs
  set l := sortTokens s with hl
  have hmem : ∀ x ∈ l, x ∈ s := fun x hx => (mem_sortTokens s x).mp hx
  have hchars := fun x (hx : x ∈ l) => tws_token_chars title x (hmem x hx)
  have hlownil : lowerStr (joinSpace l) = joinSpace l := by
    apply lowerStr_fixed
    intro c hc
    rcases mem_joinSpace l c hc with rfl | ⟨x, hx, hcx⟩
    · rfl
    · exact (hchars x hx).2 c hcx
  have hlne : l ≠ [] := sortTokens_ne_nil s (title_word_set_ne_nil title)
  have hsplit : splitOnChar ' ' (joinSpace l) = l :=
    splitOnChar_joinSpace l hlne (fun x hx => (hchars x hx).1.1)
  have hfm1 : l.flatMap (splitOnChar '_') = l :=
    flatMap_splitOnChar_id '_' l (fun x hx => (hchars x hx).1.2.1)
  have hfm2 : l.flatMap (splitOnChar '-') = l :=
    flatMap_splitOnChar_id '-' l (fun x hx => (hchars x hx).1.2.2.1)
  have hfm3 : l.flatMap (splitOnChar '/') = l :=
    flatMap_splitOnChar_id '/' l (fun x hx => (hchars x hx).1.2.2.2.1)
  have hfm4 : l.flatMap (splitOnChar '|') = l :=
    flatMap_splitOnChar_id '|' l (fun x hx => (hchars x hx).1.2.2.2.2)
  show w ∈ title_word_set (joinSpace l)
  unfold title_word_set
  rw [hlownil, hsplit, hfm1, hfm2, hfm3, hfm4, mem_collectSet]
  exact (mem_sortTokens s w).mpr hw

/-- C9 witness at a concrete title. -/
theorem tokenize_join_superset_witness :
    "alarm".data ∈
      title_word_set
        (joinSpace (sortTokens (title_word_set "Alarm clock".data))) :=
  tokenize_join_superset "Alarm clock".data "alarm".data (by decide)

theorem stepCandidate_eq (claimed : Option Nat)
    (submissions : List SprintWithSubmissions) (prw : List RStr)
    (best : Option BestMatch) (c : Nat × Nat × Assignment)
    (h : (stateAt submissions c.1 c.2.1).isSome = true) :
    stepCandidate claimed submissions prw best c =
      some (match candScore claimed submissions prw c with
        | none => best
        | some x => argStep best x) := by
  obtain ⟨si, ai, a⟩ := c
  unfold stepCandidate candScore argStep
  by_cases hskip : claimedSkip claimed si = true
  · simp only [hskip, if_true, if_pos]
  · simp only [Bool.not_eq_true] at hskip
    simp only [hskip, Bool.false_eq_true, if_false]
    cases a with
    | Attendance cd => rfl
    | ExpectedPullRequest t u opt =>
      simp only at h ⊢
      obtain ⟨st, hst⟩ := Option.isSome_iff_exists.mp h
      simp only [hst]
      cases hsubm : st.is_submitted with
      | true =>
        have hneg : ¬(st.is_submitted = false ∧
            bestCount best < matchCount (assignmentTitleWords t claimed) prw) := by
          simp [hsubm]
        simp [hsubm, hneg]
      | false =>
        by_cases hlt : bestCount best <
            matchCount (assignmentTitleWords t claimed) prw
        · simp [hsubm, hlt]
        · simp [hsubm, hlt]

theorem scanLoop_eq_foldl (claimed : Option Nat)
    (submissions : List SprintWithSubmissions) (prw : List RStr) :
    ∀ (cands : List (Nat × Nat × Assignment)) (best : Option BestMatch),
      (∀ c ∈ cands, (stateAt submissions c.1 c.2.1).isSome = true) →
      scanLoop claimed submissions prw best cands =
        some ((cands.filterMap (candScore claimed submissions prw)).foldl
          argStep best) := by
  intro cands
  induction cands with
  | nil => intro best _; rfl
  | cons c cs ih =>
    intro best h
    have hc : (stateAt submissions c.1 c.2.1).isSome = true :=
      h c (List.mem_cons_self _ _)
    have hrest : ∀ x ∈ cs, (stateAt submissions x.1 x.2.1).isSome = true :=
      fun x hx => h x (List.mem_cons_of_mem c hx)
    show (match stepCandidate claimed submissions prw best c with
      | none => none
      | some best' => scanLoop claimed submissions prw best' cs) = _
    rw [stepCandidate_eq claimed submissions prw best c hc,
      List.filterMap_cons]
    cases hcs : candScore claimed submissions prw c with
    | none => exact ih best hrest
    | some x => exact ih (argStep best x) hrest

theorem maxCount_cons (x : BestMatch) (l : List BestMatch) :
    maxCount (x :: l) = max x.match_count (maxCount l) := rfl

theorem foldl_argStep_eq (l : List BestMatch) :
    ∀ b, l.foldl argStep b =
      if bestCount b < maxCount l then
        l.find? (fun x => decide (x.match_count = maxCount l))
      else b := by
  induction l with
  | nil =>
    intro b
    rw [if_neg (by simp [maxCount])]
    rfl
  | cons x xs ih =>
    intro b
    rw [List.foldl_cons, maxCount_cons, ih]
    by_cases hbx : bestCount b < x.match_count
    · rw [show argStep b x = some x from if_pos hbx]
      by_cases hxm : x.match_count < maxCount xs
      · have hmax : max x.match_count (maxCount xs) = maxCount xs :=
          Nat.max_eq_right (Nat.le_of_lt hxm)
        rw [hmax, if_pos (by simp [bestCount]; exact hxm),
          if_pos (Nat.lt_trans hbx hxm)]
        rw [List.find?_cons_of_neg _ (by simp; omega)]
      · have hle : maxCount xs ≤ x.match_count := Nat.le_of_not_lt hxm
        have hmax : max x.match_count (maxCount xs) = x.match_count :=
          Nat.max_eq_left hle
        rw [hmax, if_neg (by simp [bestCount]; omega), if_pos hbx]
        rw [List.find?_cons_of_pos _ (by simp)]
    · have hxb : x.match_count ≤ bestCount b := Nat.le_of_not_lt hbx
      rw [show argStep b x = b from if_neg hbx]
      by_cases hbm : bestCount b < maxCount xs
      · have hmax : max x.match_count (maxCount xs) = maxCount xs :=
          Nat.max_eq_right (by omega)
        rw [hmax, List.find?_cons_of_neg _ (by simp; omega), if_pos hbm]
      · have hmax : ¬(bestCount b < max x.match_count (maxCount xs)) :=
          Nat.not_lt.mpr (Nat.max_le.mpr ⟨hxb, Nat.le_of_not_lt hbm⟩)
        rw [if_neg hbm, if_neg hmax]

theorem scanCandidates_eq (pr : Pr) (claimed : Option Nat)
    (assignments : List Sprint) (submissions : List SprintWithSubmissions)
    (hgrid : gridCovers assignments submissions) :
    scanCandidates pr claimed assignments submissions =
      some (specBestMatch pr claimed assignments submissions) := by
  unfold scanCandidates specBestMatch specScoredSlots
  rw [scanLoop_eq_foldl claimed submissions (prTitleWords pr.title claimed)
    (enumCandidates assignments) none hgrid]
  rw [foldl_argStep_eq]
  by_cases hmx : maxCount ((enumCandidates assignments).filterMap
      (candScore claimed submissions (prTitleWords pr.title claimed))) = 0
  · rw [if_pos hmx, if_neg (by rw [hmx]; exact Nat.lt_irrefl _)]
  · rw [if_neg hmx, if_pos (by show 0 < _; omega)]

/-- C3.  The best-match search of `match_pr_to_assignment` refines the
specification: candidate slots are exactly the not-yet-submitted
`ExpectedPullRequest` slots of the claimed sprint (of every sprint when no
claim exists), scored by token-set intersection; the strict greater-than
update selects the first slot in sprint-then-assignment order attaining the
maximum match count, and selects nothing when every match count is zero. -/
theorem scan_selects_first_maximum (pr : Pr) (claimed : Option Nat)
    (assignments : List Sprint) (submissions : List SprintWithSubmissions)
    (hgrid : gridCovers assignments submissions) :
    scanCandidates pr claimed assignments submissions =
      some (specBestMatch pr claimed assignments submissions) :=
  scanCandidates_eq pr claimed assignments submissions hgrid

/-- C3 witness at the specification's concrete matching scenario. -/
theorem scan_selects_first_maximum_witness :
    scanCandidates
        ⟨1, "PU".data,
          "London | March-2025 | First Last | Sprint 2 | implement_linked_list".data,
          PrState.NeedsReview, false⟩
        (some 1)
        [⟨[], []⟩,
          ⟨[Assignment.ExpectedPullRequest
              "Sprint 2 | implement linked list".data "AU".data
              AssignmentOptionality.Mandatory], []⟩]
        [⟨[]⟩, ⟨[SubmissionState.MissingButExpected
          (Assignment.ExpectedPullRequest
            "Sprint 2 | implement linked list".data "AU".data
            AssignmentOptionality.Mandatory)]⟩] =
      some (specBestMatch
        ⟨1, "PU".data,
          "London | March-2025 | First Last | Sprint 2 | implement_linked_list".data,
          PrState.NeedsReview, false⟩
        (some 1)
        [⟨[], []⟩,
          ⟨[Assignment.ExpectedPullRequest
              "Sprint 2 | implement linked list".data "AU".data
              AssignmentOptionality.Mandatory], []⟩]
        [⟨[]⟩, ⟨[SubmissionState.MissingButExpected
          (Assignment.ExpectedPullRequest
            "Sprint 2 | implement linked list".data "AU".data
            AssignmentOptionality.Mandatory)]⟩]) :=
  scan_selects_first_maximum _ _ _ _ (by decide)

theorem stateAt_set_ne (submissions : List SprintWithSubmissions)
    (si ai : Nat) (st : SubmissionState)
    (submissions' : List SprintWithSubmissions)
    (h : setStateAt submissions si ai st = some submissions') :
    ∀ si' ai', ¬(si' = si ∧ ai' = ai) →
      stateAt submissions' si' ai' = stateAt submissions si' ai' := by
  unfold setStateAt at h
  cases hs : submissions[si]? with
  | none => simp only [hs] at h; cases h
  | some sprint =>
    simp only [hs] at h
    cases ha : sprint.submissions[ai]? with
    | none => simp only [ha] at h; cases h
    | some st1 =>
      simp only [ha, Option.some.injEq] at h
      subst h
      intro si' ai' hne
      unfold stateAt
      by_cases hsi : si' = si
      · subst hsi
        have hlt : si' < submissions.length := by
          by_contra hn
          rw [List.getElem?_eq_none (Nat.le_of_not_lt hn)] at hs
          cases hs
        rw [List.getElem?_set_self hlt, hs]
        have hai : ai ≠ ai' := by
          intro he
          exact hne ⟨rfl, he.symm⟩
        simp only [List.getElem?_set_ne hai]
      · rw [List.getElem?_set_ne (fun he => hsi he.symm)]

theorem setStateAt_some (submissions : List SprintWithSubmissions)
    (si ai : Nat) (st st0 : SubmissionState)
    (h : stateAt submissions si ai = some st0) :
    ∃ submissions', setStateAt submissions si ai st = some submissions' := by
  unfold stateAt at h
  unfold setStateAt
  cases hs : submissions[si]? with
  | none => simp only [hs] at h; cases h
  | some sprint =>
    simp only [hs] at h
    simp only [hs]
    cases ha : sprint.submissions[ai]? with
    | none => simp only [ha] at h; cases h
    | some st1 =>
      simp only [ha]
      exact ⟨_, rfl⟩

theorem stepCandidate_inv (claimed : Option Nat)
    (submissions : List SprintWithSubmissions) (prw : List RStr)
    (best : Option BestMatch) (c : Nat × Nat × Assignment)
    (best' : Option BestMatch)
    (hstep : stepCandidate claimed submissions prw best c = some best')
    (hinv : ∀ b0, best = some b0 →
      ∃ st, stateAt submissions b0.sprint_index b0.assignment_index =
        some st ∧ st.is_submitted = false) :
    ∀ b0, best' = some b0 →
      ∃ st, stateAt submissions b0.sprint_index b0.assignment_index =
        some st ∧ st.is_submitted = false := by
  obtain ⟨si, ai, a⟩ := c
  unfold stepCandidate at hstep
  by_cases hskip : claimedSkip claimed si = true
  · rw [if_pos hskip] at hstep
    cases hstep
    exact hinv
  · rw [if_neg hskip] at hstep
    cases a with
    | Attendance cd =>
      cases hstep
      exact hinv
    | ExpectedPullRequest t u opt =>
      simp only at hstep
      cases hst : stateAt submissions si ai with
      | none => simp only [hst] at hstep; cases hstep
      | some st =>
        simp only [hst] at hstep
        split at hstep
        · rename_i hcond
          cases hstep
          intro b0 hb0
          cases hb0
          exact ⟨st, hst, hcond.1⟩
        · cases hstep
          exact hinv

theorem scanLoop_some_unsubmitted (claimed : Option Nat)
    (submissions : List SprintWithSubmissions) (prw : List RStr) :
    ∀ (cands : List (Nat × Nat × Assignment)) (best : Option BestMatch)
      (bm : BestMatch),
      (∀ b0, best = some b0 →
        ∃ st, stateAt submissions b0.sprint_index b0.assignment_index =
          some st ∧ st.is_submitted = false) →
      scanLoop claimed submissions prw best cands = some (some bm) →
      ∃ st, stateAt submissions bm.sprint_index bm.assignment_index =
        some st ∧ st.is_submitted = false := by
  intro cands
  induction cands with
  | nil =>
    intro best bm hinv h
    cases h
    exact hinv bm rfl
  | cons c cs ih =>
    intro best bm hinv h
    unfold scanLoop at h
    cases hstep : stepCandidate claimed submissions prw best c <;>
      rw [hstep] at h
    · cases h
    · rename_i best'
      exact ih best' bm
        (stepCandidate_inv claimed submissions prw best c best' hstep hinv) h

theorem match_pr_preserves_some (pr : Pr) (claimed : Option Nat)
    (assignments : List Sprint) (submissions : List SprintWithSubmissions)
    (unknown : List Pr) (subs' : List SprintWithSubmissions) (unk' : List Pr)
    (si ai : Nat) (sub : Submission)
    (h : match_pr_to_assignment pr claimed assignments submissions unknown =
      some (subs', unk'))
    (hsome : stateAt submissions si ai = some (SubmissionState.Some sub)) :
    stateAt subs' si ai = some (SubmissionState.Some sub) := by
  unfold match_pr_to_assignment at h
  cases hscan : scanCandidates pr claimed assignments submissions with
  | none => simp only [hscan] at h; cases h
  | some obest =>
    cases obest with
    | none =>
      simp only [hscan, Option.some.injEq, Prod.mk.injEq] at h
      rw [← h.1]
      exact hsome
    | some bm =>
      simp only [hscan] at h
      cases hset : setStateAt submissions bm.sprint_index bm.assignment_index
          (SubmissionState.Some (Submission.PullRequest pr bm.optionality)) with
      | none => simp only [hset] at h; cases h
      | some s' =>
        simp only [hset, Option.some.injEq, Prod.mk.injEq] at h
        obtain ⟨rfl, rfl⟩ := h
        have hscan' : scanLoop claimed submissions
            (prTitleWords pr.title claimed) none (enumCandidates assignments) =
            some (some bm) := hscan
        obtain ⟨st, hst, hunsub⟩ := scanLoop_some_unsubmitted claimed
          submissions (prTitleWords pr.title claimed)
          (enumCandidates assignments) none bm
          (fun b0 hb0 => by cases hb0) hscan'
        by_cases heq : si = bm.sprint_index ∧ ai = bm.assignment_index
        · obtain ⟨rfl, rfl⟩ := heq
          rw [hsome] at hst
          cases hst
          cases hunsub
        · rw [stateAt_set_ne submissions bm.sprint_index bm.assignment_index
            _ s' hset si ai heq]
          exact hsome

theorem match_pr_at_most_one_slot (pr : Pr) (claimed : Option Nat)
    (assignments : List Sprint) (submissions : List SprintWithSubmissions)
    (unknown : List Pr) (subs' : List SprintWithSubmissions) (unk' : List Pr)
    (h : match_pr_to_assignment pr claimed assignments submissions unknown =
      some (subs', unk')) :
    ∃ osi oai, ∀ si ai, ¬(si = osi ∧ ai = oai) →
      stateAt subs' si ai = stateAt submissions si ai := by
  unfold match_pr_to_assignment at h
  cases hscan : scanCandidates pr claimed assignments submissions with
  | none => simp only [hscan] at h; cases h
  | some obest =>
    cases obest with
    | none =>
      simp only [hscan, Option.some.injEq, Prod.mk.injEq] at h
      exact ⟨0, 0, fun si ai _ => by rw [← h.1]⟩
    | some bm =>
      simp only [hscan] at h
      cases hset : setStateAt submissions bm.sprint_index bm.assignment_index
          (SubmissionState.Some (Submission.PullRequest pr bm.optionality)) with
      | none => simp only [hset] at h; cases h
      | some s' =>
        simp only [hset, Option.some.injEq, Prod.mk.injEq] at h
        obtain ⟨rfl, rfl⟩ := h
        exact ⟨bm.sprint_index, bm.assignment_index,
          stateAt_set_ne submissions bm.sprint_index bm.assignment_index
            _ s' hset⟩

theorem prsLoop_preserves_some (assignments : List Sprint) :
    ∀ (prs : List Pr) (submissions : List SprintWithSubmissions)
      (unknown : List Pr) (subs' : List SprintWithSubmissions)
      (unk' : List Pr) (si ai : Nat) (sub : Submission),
      prsLoop assignments submissions unknown prs =
        some (Except.ok (subs', unk')) →
      stateAt submissions si ai = some (SubmissionState.Some sub) →
      stateAt subs' si ai = some (SubmissionState.Some sub) := by
  intro prs
  induction prs with
  | nil =>
    intro submissions unknown subs' unk' si ai sub h hsome
    cases h
    exact hsome
  | cons pr rest ih =>
    intro submissions unknown subs' unk' si ai sub h hsome
    unfold prsLoop at h
    cases hcl : extractClaim pr.title with
    | error e => simp only [hcl] at h; cases h
    | ok claimed =>
      simp only [hcl] at h
      cases hm : match_pr_to_assignment pr claimed assignments submissions
          unknown with
      | none => simp only [hm] at h; cases h
      | some p =>
        simp only [hm] at h
        obtain ⟨s1, u1⟩ := p
        exact ih s1 u1 subs' unk' si ai sub h
          (match_pr_preserves_some pr claimed assignments submissions unknown
            s1 u1 si ai sub hm hsome)

/-- C5.  Throughout the PR loop of `match_prs_to_assignments`, a slot whose
state is `Some(...)` is never overwritten by any later PR of the batch, and
one PR changes at most one slot of the grid. -/
theorem slot_filled_once (assignments : List Sprint) :
    (∀ (prs : List Pr) (submissions : List SprintWithSubmissions)
      (unknown : List Pr) (subs' : List SprintWithSubmissions)
      (unk' : List Pr) (si ai : Nat) (sub : Submission),
      prsLoop assignments submissions unknown prs =
        some (Except.ok (subs', unk')) →
      stateAt submissions si ai = some (SubmissionState.Some sub) →
      stateAt subs' si ai = some (SubmissionState.Some sub)) ∧
    (∀ (pr : Pr) (claimed : Option Nat)
      (submissions : List SprintWithSubmissions) (unknown : List Pr)
      (subs' : List SprintWithSubmissions) (unk' : List Pr),
      match_pr_to_assignment pr claimed assignments submissions unknown =
        some (subs', unk') →
      ∃ osi oai, ∀ si ai, ¬(si = osi ∧ ai = oai) →
        stateAt subs' si ai = stateAt submissions si ai) :=
  ⟨fun prs submissions unknown subs' unk' si ai sub h hsome =>
    prsLoop_preserves_some assignments prs submissions unknown subs' unk'
      si ai sub h hsome,
  fun pr claimed submissions unknown subs' unk' h =>
    match_pr_at_most_one_slot pr claimed assignments submissions unknown
      subs' unk' h⟩

/-- C5 witness: a filled slot survives a later matching PR, which lands in
`unknown_prs`, and a single PR changes at most one slot. -/
theorem slot_filled_once_witness :
    stateAt subsFilled 0 0 = some (SubmissionState.Some subAlarm) ∧
      ∃ osi oai, ∀ si ai, ¬(si = osi ∧ ai = oai) →
        stateAt subsFilled si ai = stateAt subsFilled si ai :=
  ⟨(slot_filled_once [sprintAlarm]).1 [prAlarmSecond] subsFilled []
      subsFilled [prAlarmSecond] 0 0 subAlarm (by rfl) (by rfl),
    (slot_filled_once [sprintAlarm]).2 prAlarmSecond none subsFilled []
      subsFilled [prAlarmSecond] (by rfl)⟩

theorem maxCount_eq_zero (l : List BestMatch)
    (h : ∀ x ∈ l, x.match_count = 0) : maxCount l = 0 := by
  induction l with
  | nil => rfl
  | cons x xs ih =>
    rw [maxCount_cons, h x (List.mem_cons_self _ _),
      ih (fun y hy => h y (List.mem_cons_of_mem x hy))]
    rfl

/-- C6.  A PR whose candidate slots all score zero changes no slot state:
it is appended to `unknown_prs` exactly when it is not closed, and a closed
unmatched PR appears in no output list. -/
theorem unmatched_pr_disposition (pr : Pr) (claimed : Option Nat)
    (assignments : List Sprint) (submissions : List SprintWithSubmissions)
    (unknown : List Pr)
    (hgrid : gridCovers assignments submissions)
    (hzero : ∀ x ∈ specScoredSlots pr claimed assignments submissions,
      x.match_count = 0) :
    match_pr_to_assignment pr claimed assignments submissions unknown =
      some (submissions,
        if pr.is_closed then unknown else unknown ++ [pr]) := by
  have hspec : specBestMatch pr claimed assignments submissions = none := by
    unfold specBestMatch
    rw [if_pos (maxCount_eq_zero _ hzero)]
  unfold match_pr_to_assignment
  rw [scanCandidates_eq pr claimed assignments submissions hgrid, hspec]

/-- C6 witness: a PR matching nothing lands in `unknown_prs` and changes no
slot. -/
theorem unmatched_pr_disposition_witness :
    match_pr_to_assignment prNoMatch none [sprintAlarm] subsOpen [] =
      some (subsOpen,
        if prNoMatch.is_closed then [] else [] ++ [prNoMatch]) :=
  unmatched_pr_disposition prNoMatch none [sprintAlarm] subsOpen []
    (by decide) (by decide)

theorem enumCandidates_fst_lt (assignments : List Sprint) :
    ∀ c ∈ enumCandidates assignments, c.1 < assignments.length := by
  intro c hc
  unfold enumCandidates at hc
  rw [List.mem_flatMap] at hc
  obtain ⟨p, hp, hc⟩ := hc
  rw [List.mem_map] at hc
  obtain ⟨q, hq, rfl⟩ := hc
  simp only
  have hget := List.mem_enum_iff_getElem?.mp hp
  by_contra hn
  rw [List.getElem?_eq_none (Nat.le_of_not_lt hn)] at hget
  cases hget

theorem scanLoop_all_skip (claimed : Option Nat)
    (submissions : List SprintWithSubmissions) (prw : List RStr) :
    ∀ (cands : List (Nat × Nat × Assignment)) (best : Option BestMatch),
      (∀ c ∈ cands, claimedSkip claimed c.1 = true) →
      scanLoop claimed submissions prw best cands = some best := by
  intro cands
  induction cands with
  | nil => intro best _; rfl
  | cons c cs ih =>
    intro best h
    have hstep : stepCandidate claimed submissions prw best c = some best := by
      obtain ⟨si, ai, a⟩ := c
      unfold stepCandidate
      rw [if_pos (h (si, ai, a) (List.mem_cons_self _ _))]
    show (match stepCandidate claimed submissions prw best c with
      | none => none
      | some best' => scanLoop claimed submissions prw best' cs) = some best
    rw [hstep]
    exact ih best (fun x hx => h x (List.mem_cons_of_mem c hx))

/-- C10.  A PR whose claimed sprint number passes the `[1, 20]` range check
but names a sprint index at or beyond the module's sprint count is simply
unmatched — the scan skips every sprint, no slot is read or written, and
the PR is appended to `unknown_prs` exactly when it is open — rather than
panicking or failing fatally. -/
theorem out_of_range_claim_safe (pr : Pr) (n : Nat)
    (assignments : List Sprint) (submissions : List SprintWithSubmissions)
    (unknown : List Pr)
    (_h1 : 1 ≤ n) (_h2 : n ≤ 20) (h3 : assignments.length ≤ n - 1) :
    match_pr_to_assignment pr (some (n - 1)) assignments submissions
        unknown =
      some (submissions,
        if pr.is_closed then unknown else unknown ++ [pr]) := by
  have hskip : ∀ c ∈ enumCandidates assignments,
      claimedSkip (some (n - 1)) c.1 = true := by
    intro c hc
    have hlt := enumCandidates_fst_lt assignments c hc
    unfold claimedSkip
    simp only [decide_eq_true_eq]
    omega
  have hscan : scanCandidates pr (some (n - 1)) assignments submissions =
      some none :=
    scanLoop_all_skip (some (n - 1)) submissions
      (prTitleWords pr.title (some (n - 1))) (enumCandidates assignments)
      none hskip
  unfold match_pr_to_assignment
  rw [hscan]

/-- C10 witness: claimed sprint 3 against a one-sprint module. -/
theorem out_of_range_claim_safe_witness :
    match_pr_to_assignment prAlarmSecond (some (3 - 1)) [sprintAlarm]
        subsOpen [] =
      some (subsOpen,
        if prAlarmSecond.is_closed then [] else [] ++ [prAlarmSecond]) :=
  out_of_range_claim_safe prAlarmSecond 3 [sprintAlarm] subsOpen []
    (by decide) (by decide) (by decide)

theorem claimStep_not_relevant (si : Option Nat) (part : RStr)
    (h : claimRelevant part = false) : claimStep si part = Except.ok si := by
  unfold claimStep
  by_cases hS : (startsWith "sprint".data part ||
      startsWith "week".data part) = true
  · rw [if_pos hS]
    unfold claimRelevant at h
    rw [hS, Bool.true_and] at h
    cases hd : firstDigitRun part with
    | none => simp only [hd]
    | some ds => rw [hd] at h; simp at h
  · rw [if_neg hS]

theorem claimStep_good (si : Option Nat) (part : RStr) (ds : RStr) (n : Nat)
    (hS : (startsWith "sprint".data part ||
      startsWith "week".data part) = true)
    (hd : firstDigitRun part = some ds)
    (hp : parseUsizeStr ds = some n) (h1 : 1 ≤ n) (h2 : n ≤ 20) :
    claimStep si part = Except.ok (some (n - 1)) := by
  unfold claimStep
  rw [if_pos hS]
  simp only [hd, hp]
  rw [if_neg (by simp; omega)]

theorem claimStep_bad (si : Option Nat) (part : RStr) (ds : RStr) (n : Nat)
    (hS : (startsWith "sprint".data part ||
      startsWith "week".data part) = true)
    (hd : firstDigitRun part = some ds)
    (hp : parseUsizeStr ds = some n) (hout : n = 0 ∨ 20 < n) :
    claimStep si part = Except.error (Error.Fatal (sprintRangeMsg n)) := by
  unfold claimStep
  rw [if_pos hS]
  simp only [hd, hp]
  rw [if_pos (by rcases hout with h | h <;> simp [h])]

theorem claimStep_error (si : Option Nat) (part : RStr) (e : Error)
    (h : claimStep si part = Except.error e) : ∃ m, e = Error.Fatal m := by
  unfold claimStep at h
  split at h
  · cases hd : firstDigitRun part with
    | none => simp only [hd] at h; cases h
    | some ds =>
      simp only [hd] at h
      cases hp : parseUsizeStr ds with
      | none =>
        simp only [hp] at h
        cases h
        exact ⟨_, rfl⟩
      | some n =>
        simp only [hp] at h
        split at h
        · cases h
          exact ⟨_, rfl⟩
        · cases h
  · cases h

theorem mem_claimNumbers (title : RStr) (n : Nat) :
    n ∈ claimNumbers title ↔
      ∃ part ∈ (claimParts title).filter claimRelevant,
        (firstDigitRun part).bind parseUsizeStr = some n := by
  unfold claimNumbers
  rw [List.mem_filterMap]

theorem getLast?_cons_some (q : RStr) (qs : List RStr) :
    ∃ y, (q :: qs).getLast? = some y := by
  induction qs generalizing q with
  | nil => exact ⟨q, rfl⟩
  | cons r rs ih =>
    rw [List.getLast?_cons_cons]
    exact ih r

theorem claimRelevant_parts (part : RStr) (hrel : claimRelevant part = true) :
    (startsWith "sprint".data part || startsWith "week".data part) = true ∧
      ∃ ds, firstDigitRun part = some ds := by
  unfold claimRelevant at hrel
  constructor
  · cases hS : (startsWith "sprint".data part || startsWith "week".data part)
    · rw [hS, Bool.false_and] at hrel
      cases hrel
    · rfl
  · cases hd : firstDigitRun part
    · rw [hd] at hrel
      simp at hrel
    · exact ⟨_, rfl⟩

theorem claimLoop_ok (parts : List RStr) :
    (∀ part ∈ parts.filter claimRelevant,
      ∃ n, (firstDigitRun part).bind parseUsizeStr = some n ∧
        1 ≤ n ∧ n ≤ 20) →
    ∀ si, claimLoop si parts = Except.ok
      (match (parts.filter claimRelevant).getLast? with
       | some part =>
         ((firstDigitRun part).bind parseUsizeStr).map (fun n => n - 1)
       | none => si) := by
  induction parts with
  | nil => intro _ si; rfl
  | cons p rest ih =>
    intro hok si
    by_cases hrel : claimRelevant p = true
    · have hfilter : (p :: rest).filter claimRelevant =
          p :: rest.filter claimRelevant := List.filter_cons_of_pos hrel
      obtain ⟨hS, ds, hds⟩ := claimRelevant_parts p hrel
      obtain ⟨n, hbind, h1, h2⟩ := hok p
        (by rw [hfilter]; exact List.mem_cons_self _ _)
      rw [hds] at hbind
      have hp : parseUsizeStr ds = some n := hbind
      have hrest : ∀ part ∈ rest.filter claimRelevant,
          ∃ n, (firstDigitRun part).bind parseUsizeStr = some n ∧
            1 ≤ n ∧ n ≤ 20 :=
        fun part hpart => hok part
          (by rw [hfilter]; exact List.mem_cons_of_mem _ hpart)
      unfold claimLoop
      rw [claimStep_good si p ds n hS hds hp h1 h2]
      simp only
      rw [ih hrest (some (n - 1)), hfilter]
      cases hfr : rest.filter claimRelevant with
      | nil => simp [hfr, hds, hp]
      | cons q qs =>
        obtain ⟨y, hy⟩ := getLast?_cons_some q qs
        simp only [hfr, List.getLast?_cons_cons, hy]
    · have hrel' : claimRelevant p = false := by
        cases hr : claimRelevant p
        · rfl
        · exact absurd hr hrel
      have hfilter : (p :: rest).filter claimRelevant =
          rest.filter claimRelevant := List.filter_cons_of_neg hrel
      unfold claimLoop
      rw [claimStep_not_relevant si p hrel']
      simp only
      rw [ih (fun part hpart => hok part (by rw [hfilter]; exact hpart)) si,
        hfilter]

theorem claimLoop_err (parts : List RStr) :
    (∃ part ∈ parts.filter claimRelevant,
      ∃ n, (firstDigitRun part).bind parseUsizeStr = some n ∧
        (n = 0 ∨ 20 < n)) →
    ∀ si, ∃ msg, claimLoop si parts = Except.error (Error.Fatal msg) := by
  induction parts with
  | nil => intro h si; simp at h
  | cons p rest ih =>
    intro hbad si
    obtain ⟨part, hmem, n, hbind, hout⟩ := hbad
    by_cases hrel : claimRelevant p = true
    · rw [List.filter_cons_of_pos hrel] at hmem
      rcases List.mem_cons.mp hmem with rfl | hmem'
      · obtain ⟨hS, ds, hds⟩ := claimRelevant_parts part hrel
        rw [hds] at hbind
        have hp : parseUsizeStr ds = some n := hbind
        refine ⟨sprintRangeMsg n, ?_⟩
        unfold claimLoop
        rw [claimStep_bad si part ds n hS hds hp hout]
      · cases hstep : claimStep si p with
        | error e =>
          obtain ⟨m, rfl⟩ := claimStep_error si p e hstep
          refine ⟨m, ?_⟩
          unfold claimLoop
          rw [hstep]
        | ok si' =>
          obtain ⟨msg, hmsg⟩ := ih ⟨part, hmem', n, hbind, hout⟩ si'
          refine ⟨msg, ?_⟩
          unfold claimLoop
          rw [hstep]
          exact hmsg
    · have hrel' : claimRelevant p = false := by
        cases hr : claimRelevant p
        · rfl
        · exact absurd hr hrel
      rw [List.filter_cons_of_neg hrel] at hmem
      obtain ⟨msg, hmsg⟩ := ih ⟨part, hmem, n, hbind, hout⟩ si
      refine ⟨msg, ?_⟩
      unfold claimLoop
      rw [claimStep_not_relevant si p hrel']
      exact hmsg

theorem extractClaim_as_claimLoop (title : RStr) :
    extractClaim title = claimLoop none (claimParts title) := rfl

theorem prsLoop_bad_no_ok (assignments : List Sprint) :
    ∀ (prs : List Pr) (submissions : List SprintWithSubmissions)
      (unknown : List Pr) (out : List SprintWithSubmissions × List Pr),
      (∃ pr ∈ prs, ∃ n ∈ claimNumbers pr.title, n = 0 ∨ 20 < n) →
      prsLoop assignments submissions unknown prs ≠
        some (Except.ok out) := by
  intro prs
  induction prs with
  | nil =>
    intro submissions unknown out hbad
    simp at hbad
  | cons pr rest ih =>
    intro submissions unknown out hbad h
    obtain ⟨pr', hpr', n, hn, hout⟩ := hbad
    rcases List.mem_cons.mp hpr' with rfl | hmem
    · obtain ⟨part, hpart, hbind⟩ := (mem_claimNumbers pr'.title n).mp hn
      obtain ⟨msg, hmsg⟩ :=
        claimLoop_err (claimParts pr'.title) ⟨part, hpart, n, hbind, hout⟩ none
      unfold prsLoop at h
      rw [show extractClaim pr'.title =
        Except.error (Error.Fatal msg) from hmsg] at h
      cases h
    · unfold prsLoop at h
      cases hcl : extractClaim pr.title with
      | error e => simp only [hcl] at h; cases h
      | ok claimed =>
        simp only [hcl] at h
        cases hm : match_pr_to_assignment pr claimed assignments submissions
            unknown with
        | none => simp only [hm] at h; cases h
        | some p =>
          simp only [hm] at h
          obtain ⟨s1, u1⟩ := p
          exact ih s1 u1 out ⟨pr', hmem, n, hn, hout⟩ h

/-- C7 counterexample: the claimed sprint is not determined by the last
part starting with `sprint` or `week` — two titles sharing the same last
such part (the digit-less `sprintless`) extract different claims, because a
matching part without digits leaves the previous claim in place. -/
theorem claim_last_part_counterexample :
    extractClaim "sprint 2 | sprintless".data = Except.ok (some 1) ∧
      extractClaim "sprint 3 | sprintless".data = Except.ok (some 2) ∧
      lastClaimPart "sprint 2 | sprintless".data =
        lastClaimPart "sprint 3 | sprintless".data ∧
      lastClaimPart "sprint 2 | sprintless".data = some "sprintless".data :=
  ⟨rfl, rfl, rfl, rfl⟩

/-- C7 (amended).  Claim extraction splits the title on `|` with trimmed
lowercased parts; among parts starting with `sprint` or `week` that contain
a digit run, the last one wins with no error for multiple matching parts (a
matching part without digits leaves the previous claim in place); the claim
is `None` when no such part exists; and a parsed number equal to 0 or
greater than 20 is a fatal error that makes the whole
`match_prs_to_assignments` computation fail. -/
theorem claim_extraction_characterization :
    (∀ title : RStr, claimNumbersOk title →
      extractClaim title = Except.ok (specClaim title)) ∧
    (∀ title : RStr, (∃ n ∈ claimNumbers title, n = 0 ∨ 20 < n) →
      ∃ msg, extractClaim title = Except.error (Error.Fatal msg)) ∧
    (∀ (now : Nat) (module : Module) (prs : List Pr)
      (attendance : List SubmissionState) (region : Region)
      (out : ModuleWithSubmissions),
      (∃ pr ∈ prs, ∃ n ∈ claimNumbers pr.title, n = 0 ∨ 20 < n) →
      match_prs_to_assignments now module prs attendance region ≠
        some (Except.ok out)) := by
  refine ⟨?_, ?_, ?_⟩
  · intro title hok
    obtain ⟨hrange, hsome⟩ := hok
    have hok' : ∀ part ∈ (claimParts title).filter claimRelevant,
        ∃ n, (firstDigitRun part).bind parseUsizeStr = some n ∧
          1 ≤ n ∧ n ≤ 20 := by
      intro part hpart
      obtain ⟨n, hn⟩ := Option.isSome_iff_exists.mp (hsome part hpart)
      have hmemn : n ∈ claimNumbers title :=
        (mem_claimNumbers title n).mpr ⟨part, hpart, hn⟩
      exact ⟨n, hn, (hrange n hmemn).1, (hrange n hmemn).2⟩
    rw [extractClaim_as_claimLoop, claimLoop_ok (claimParts title) hok' none]
    unfold specClaim
    cases hlast : ((claimParts title).filter claimRelevant).getLast? <;>
      simp [hlast]
  · intro title hbad
    obtain ⟨n, hn, hout⟩ := hbad
    obtain ⟨part, hpart, hbind⟩ := (mem_claimNumbers title n).mp hn
    rw [extractClaim_as_claimLoop]
    exact claimLoop_err (claimParts title) ⟨part, hpart, n, hbind, hout⟩ none
  · intro now module prs attendance region out hbad h
    unfold match_prs_to_assignments at h
    cases hp : prsLoop module.sprints
        (seedModule now module attendance region) [] prs with
    | none => simp only [hp] at h; cases h
    | some r =>
      cases r with
      | error e => simp only [hp] at h; cases h
      | ok p =>
        obtain ⟨s1, u1⟩ := p
        exact prsLoop_bad_no_ok module.sprints prs
          (seedModule now module attendance region) [] (s1, u1) hbad hp

/-- C7 amended-theorem witness at concrete titles and a concrete batch. -/
theorem claim_extraction_characterization_witness :
    extractClaim "week 3 | sprint 4".data =
        Except.ok (specClaim "week 3 | sprint 4".data) ∧
      (∃ msg, extractClaim "Sprint 25 | zzz".data =
        Except.error (Error.Fatal msg)) ∧
      match_prs_to_assignments 100 ⟨[sprintAlarm]⟩ [prBadClaim] []
          "london".data ≠
        some (Except.ok ⟨[⟨[SubmissionState.MissingButExpected eprAlarm]⟩],
          []⟩) :=
  ⟨claim_extraction_characterization.1 _ (by decide),
    claim_extraction_characterization.2.1 _ (by decide),
    claim_extraction_characterization.2.2 100 ⟨[sprintAlarm]⟩ [prBadClaim]
      [] "london".data _ (by decide)⟩

end TraineeTracker
